import Mathlib

/-!
Rate-limit aware retry backoff (`pkg/jira/rate-limiting.go`).

A shallow embedding of `RateLimitInfo.JiraBackoff`, `getResponseHeaderInt`,
`getResponseHeaderString`, `sumMapValues` and `simpleBackOff`, together with the
parts of the Go runtime and standard library they rely on:

* `int` and `time.Duration` are 64-bit two's-complement integers; they are carried
  as `Int` and every arithmetic result is reduced with `wrapInt64`;
* `/` on `int` panics on a zero divisor, a write to a nil map panics;
* `strconv.Atoi`, `http.Header.Get` and `textproto.CanonicalMIMEHeaderKey`;
* the `float64` values that `simpleBackOff` can produce, exactly: every finite one
  is an integer divided by a power of two.
-/

namespace Jira

/-! ## Machine integers -/

/-- Two's-complement reduction of an exact integer to the signed 64-bit range. -/
def wrapInt64 (z : Int) : Int := (z + 2 ^ 63) % 2 ^ 64 - 2 ^ 63

/-- The smallest `int64`. -/
def minInt64 : Int := -(2 ^ 63)

/-- The largest `int64`. -/
def maxInt64 : Int := 2 ^ 63 - 1

/-- Membership in the signed 64-bit range. -/
def InInt64 (z : Int) : Prop := minInt64 ≤ z ∧ z ≤ maxInt64

instance (z : Int) : Decidable (InInt64 z) := by unfold InInt64; infer_instance

/-- A `time.Duration`: a signed 64-bit count of nanoseconds. -/
abbrev Duration := Int

/-- The constant `time.Second`, in nanoseconds. -/
def Second : Duration := 1000000000

/-- The run-time panics the modelled code can raise. -/
inductive GoPanic
  | integerDivideByZero
  | assignmentToEntryInNilMap
deriving DecidableEq

/-- Go's `a / b` on `int`: a run-time panic when `b` is zero, otherwise the quotient
truncated toward zero, in 64 bits (so the smallest `int` divided by `-1` wraps). -/
def goDiv (a b : Int) : Except GoPanic Int :=
  if b = 0 then .error .integerDivideByZero else .ok (wrapInt64 (Int.tdiv a b))

/-! ## `float64`, as far as `simpleBackOff` uses it -/

/-- The platform: the Go specification leaves the result of converting a floating-point
value that the integer type cannot represent to the implementation. -/
inductive Arch
  | amd64
  | arm64
deriving DecidableEq

/-- A `float64` value: `finite num shift` is the number `num / 2 ^ shift` (the sign of
zero is not tracked, no operation below distinguishes the two zeros). -/
inductive Float64
  | finite (num : Int) (shift : Nat)
  | inf (negative : Bool)
  | nan
deriving DecidableEq

/-- The number of low bits a natural number loses when it is cut to 53 significant
bits: halve until the number is below `2 ^ 53` (the first argument bounds the number of
halvings and is taken to be the number itself). -/
def dropBits : Nat → Nat → Nat
  | 0, _ => 0
  | fuel + 1, a => if a < 2 ^ 53 then 0 else dropBits fuel (a / 2) + 1

/-- Round an integer to the nearest integer with at most 53 significant bits, ties to
the even significand: the value of `float64(z)` for an `int64` `z`. -/
def roundToFloat64 (z : Int) : Int :=
  let a := z.natAbs
  if a < 2 ^ 53 then z
  else
    let e := dropBits a a
    let q := a / 2 ^ e
    let r := a % 2 ^ e
    let half := 2 ^ (e - 1)
    let q' := if half < r ∨ (r = half ∧ q % 2 = 1) then q + 1 else q
    Int.sign z * ((q' * 2 ^ e : Nat) : Int)

/-- The conversion `float64(z)` of a 64-bit integer. -/
def Float64.ofInt64 (z : Int) : Float64 := .finite (roundToFloat64 z) 0

/-- The comparison `x != y` on `float64`: a NaN differs from everything, itself
included. -/
def Float64.ne : Float64 → Float64 → Bool
  | .finite a s, .finite b t => a * 2 ^ t != b * 2 ^ s
  | .inf x, .inf y => x != y
  | _, _ => true

/-- The conversion `time.Duration(x)` (`int64(x)`) of a `float64`: truncation toward
zero when the result fits; otherwise what the platform's conversion instruction gives
(amd64: the smallest `int64`; arm64: saturation, and 0 for a NaN). -/
def Float64.toInt64 (arch : Arch) : Float64 → Int
  | .finite num shift =>
    let t := Int.tdiv num (2 ^ shift)
    if minInt64 ≤ t ∧ t ≤ maxInt64 then t
    else
      match arch with
      | .amd64 => minInt64
      | .arm64 => if t < 0 then minInt64 else maxInt64
  | .inf negative =>
    match arch with
    | .amd64 => minInt64
    | .arm64 => if negative then minInt64 else maxInt64
  | .nan =>
    match arch with
    | .amd64 => minInt64
    | .arm64 => 0

/-- Round the number `num / 2 ^ shift` to the nearest `float64`, ties to the even
significand: below `2 ^ (-1022)` the `float64` values are the multiples of
`2 ^ (-1074)`, above they have 53 significant bits, and a result that reaches
`2 ^ 1024` is an infinity. -/
def Float64.round (num : Int) (shift : Nat) : Float64 :=
  if num.natAbs * 2 ^ 1022 < 2 ^ shift then
    if shift ≤ 1074 then .finite num shift
    else
      let e := shift - 1074
      let q := num.natAbs / 2 ^ e
      let r := num.natAbs % 2 ^ e
      let half := 2 ^ (e - 1)
      let q' := if half < r ∨ (r = half ∧ q % 2 = 1) then q + 1 else q
      .finite (Int.sign num * (q' : Int)) 1074
  else
    let r := roundToFloat64 num
    if 2 ^ (1024 + shift) ≤ r.natAbs then .inf (decide (num < 0)) else .finite r shift

/-- The product `x * y` on `float64`: the exact product, rounded; an infinity times
zero is a NaN. -/
def Float64.mul : Float64 → Float64 → Float64
  | .finite a s, .finite b t => Float64.round (a * b) (s + t)
  | .finite a _, .inf negative => if a = 0 then .nan else .inf (xor negative (decide (a < 0)))
  | .inf negative, .finite b _ => if b = 0 then .nan else .inf (xor negative (decide (b < 0)))
  | .inf x, .inf y => .inf (xor x y)
  | _, _ => .nan

/-- The value `math.Pow(2, float64(y))` for an `int` `y`: the exact power of two from
`2 ^ (-1074)`, the smallest positive `float64`, to `2 ^ 1023`; `+Inf` above and 0 below
(the rounding of `float64(y)` for a `y` beyond `2 ^ 53` does not cross these bounds). -/
def powTwo (y : Int) : Float64 :=
  if 1024 ≤ y then .inf false
  else if 0 ≤ y then .finite (2 ^ y.toNat) 0
  else if -1074 ≤ y then .finite 1 (-y).toNat
  else .finite 0 0

/-! ## `net/http` and `strconv` -/

/-- The constant `http.StatusTooManyRequests`. -/
def StatusTooManyRequests : Int := 429

/-- An `http.Header`: the values recorded under each key (a nil map is the empty
list; the first binding of a key is the map's entry). -/
abbrev Header := List (String × List String)

/-- The fields of `http.Response` that the backoff reads. -/
structure Response where
  StatusCode : Int
  Header : Header
deriving DecidableEq

/-- The token bytes of RFC 7230 (`textproto`'s `validHeaderFieldByte`). -/
def validHeaderFieldByte (c : Char) : Bool :=
  c.isAlphanum || "!#$%&*+-.^_|~".toList.contains c || c == Char.ofNat 39 ||
    c == Char.ofNat 96

/-- The rewriting loop of `textproto.canonicalMIMEHeaderKey`: the first letter and every
letter after a hyphen in upper case, the others in lower case. -/
def canonicalizeChars : Bool → List Char → List Char
  | _, [] => []
  | upper, c :: cs =>
    let c' := if upper then c.toUpper else c.toLower
    c' :: canonicalizeChars (c' == '-') cs

/-- The function `textproto.CanonicalMIMEHeaderKey`: a key holding a byte that is not a
token byte is returned unchanged. -/
def CanonicalMIMEHeaderKey (s : String) : String :=
  if s.toList.all validHeaderFieldByte then String.mk (canonicalizeChars true s.toList)
  else s

/-- The method `Header.Get`: the first value recorded under the canonical form of the
key, or the empty string. -/
def Header.Get (h : Header) (key : String) : String :=
  match h.lookup (CanonicalMIMEHeaderKey key) with
  | some (v :: _) => v
  | _ => ""

/-- The value of a run of decimal digits, most significant first; `none` when a
character is not a digit. -/
def parseDigits : Nat → List Char → Option Nat
  | acc, [] => some acc
  | acc, c :: cs => if c.isDigit then parseDigits (acc * 10 + (c.toNat - 48)) cs else none

/-- The function `strconv.Atoi` on a 64-bit platform: an optional sign, then at least
one decimal digit, and a value in the `int` range; `none` stands for the error. -/
def Atoi (s : String) : Option Int :=
  match s.toList with
  | [] => none
  | c :: cs =>
    let body := if c = '-' ∨ c = '+' then cs else c :: cs
    match body with
    | [] => none
    | _ :: _ =>
      match parseDigits 0 body with
      | none => none
      | some n =>
        let v : Int := if c = '-' then -(n : Int) else (n : Int)
        if minInt64 ≤ v ∧ v ≤ maxInt64 then some v else none

/-! ## The package `jira` -/

/-- A Go `map[string]int` that is not nil: finitely many keys, one value each, no
order. -/
abbrev Table := Finmap (fun _ : String => Int)

/-- The struct `RateLimitInfo`; `Data = none` is the nil map. -/
structure RateLimitInfo where
  Data : Option Table
deriving DecidableEq

/-- One step of the loop of `sumMapValues`: `sum += value` on `int`. -/
def sumStep (sum : Int) (_key : String) (value : Int) : Int := wrapInt64 (sum + value)

/-- The loop of `sumMapValues` run over one particular iteration order. -/
def sumEntries (entries : List (String × Int)) : Int :=
  entries.foldl (fun sum kv => sumStep sum kv.1 kv.2) 0

/-- The function `sumMapValues`: ranging over a nil map runs the body zero times; over
any other map it adds every value once, in an order the runtime chooses. -/
def sumMapValues : Option Table → Int
  | none => 0
  | some t =>
    Finmap.foldl sumStep
      (by intro d a₁ b₁ a₂ b₂; unfold sumStep wrapInt64; omega) 0 t

/-- The function `simpleBackOff`. -/
def simpleBackOff (arch : Arch) (min max : Duration) (attemptNum : Int) : Duration :=
  let mult := Float64.mul (powTwo attemptNum) (Float64.ofInt64 min)
  let sleep := Float64.toInt64 arch mult
  if Float64.ne (Float64.ofInt64 sleep) mult ∨ sleep > max then max else sleep

/-- The function `getResponseHeaderInt`. -/
def getResponseHeaderInt (resp : Response) (key : String) : Int × Bool :=
  if Header.Get resp.Header key ≠ "" then
    match Atoi (Header.Get resp.Header key) with
    | some value => (value, true)
    | none => (0, false)
  else (0, false)

/-- The function `getResponseHeaderString`. -/
def getResponseHeaderString (resp : Response) (key : String) : String × Bool :=
  if Header.Get resp.Header key ≠ "" then (Header.Get resp.Header key, true)
  else ("", false)

/-- The method `(*RateLimitInfo).JiraBackoff` for a receiver that is not nil: the
receiver after the call and the returned duration, or the panic that ends the call. -/
def JiraBackoff (arch : Arch) (m : RateLimitInfo) (min max : Duration) (attemptNum : Int)
    (resp : Option Response) : Except GoPanic (RateLimitInfo × Duration) :=
  match resp with
  | none => .ok (m, simpleBackOff arch min max attemptNum)
  | some resp =>
    if resp.StatusCode = StatusTooManyRequests then
      let nodeId := getResponseHeaderString resp "x-anodeid"
      if !nodeId.2 then .ok (m, simpleBackOff arch min max attemptNum)
      else
        let interval := getResponseHeaderInt resp "x-ratelimit-interval-seconds"
        if !interval.2 then .ok (m, simpleBackOff arch min max attemptNum)
        else
          let fillRate := getResponseHeaderInt resp "x-ratelimit-fillrate"
          if !fillRate.2 then .ok (m, simpleBackOff arch min max attemptNum)
          else
            let retryAfter := getResponseHeaderInt resp "Retry-After"
            if !retryAfter.2 then .ok (m, simpleBackOff arch min max attemptNum)
            else
              match m.Data with
              | none => .error .assignmentToEntryInNilMap
              | some data =>
                let m' : RateLimitInfo := ⟨some (data.insert nodeId.1 retryAfter.1)⟩
                if sumMapValues m'.Data = 0 then
                  match goDiv interval.1 fillRate.1 with
                  | .error p => .error p
                  | .ok rateLimit => .ok (m', wrapInt64 (rateLimit * Second))
                else .ok (m', simpleBackOff arch min max attemptNum)
    else .ok (m, simpleBackOff arch min max attemptNum)

instance : DecidableEq (Except GoPanic (RateLimitInfo × Duration)) := fun a b =>
  match a, b with
  | .ok x, .ok y =>
    if h : x = y then isTrue (by rw [h]) else isFalse (by intro h2; cases h2; exact h rfl)
  | .error x, .error y =>
    if h : x = y then isTrue (by rw [h]) else isFalse (by intro h2; cases h2; exact h rfl)
  | .ok _, .error _ => isFalse (by intro h; cases h)
  | .error _, .ok _ => isFalse (by intro h; cases h)

/-! ## Notions used to state the properties -/

/-- The exact (unbounded) sum of the values of a table. -/
def tableTotal (t : Table) : Int := (t.entries.map Sigma.snd).sum

/-- A response in the shape of the test suite's: the four rate-limit headers under their
canonical keys, one value each. -/
def rateLimitResponse (status : Int) (nodeId interval fillRate retryAfter : String) :
    Response :=
  ⟨status, [("X-Anodeid", [nodeId]), ("X-Ratelimit-Interval-Seconds", [interval]),
    ("X-Ratelimit-Fillrate", [fillRate]), ("Retry-After", [retryAfter])]⟩

/-- The receiver the callers start from: `RateLimitInfo` with an empty, non-nil map. -/
def emptyInfo : RateLimitInfo := ⟨some ∅⟩

/-- The receivers that calls of `JiraBackoff` that return can produce from `emptyInfo`. -/
inductive Reachable (arch : Arch) : RateLimitInfo → Prop
  | start : Reachable arch emptyInfo
  | call {m m' : RateLimitInfo} (min max : Duration) (attemptNum : Int)
      (resp : Option Response) (d : Duration) :
      Reachable arch m → JiraBackoff arch m min max attemptNum resp = .ok (m', d) →
      Reachable arch m'

/-- A natural number with at most 53 significant bits. -/
def Exact53 (a : Nat) : Prop := ∃ m k : Nat, a = m * 2 ^ k ∧ m < 2 ^ 53

/-- A table of two nodes that each recorded the largest `int` as their wait. -/
def saturatedTable : Table :=
  ((∅ : Table).insert "node-a" maxInt64).insert "node-b" maxInt64

/-- A table of three nodes whose non-negative waits add up to `2 ^ 64`. -/
def wrappedTable : Table :=
  (((∅ : Table).insert "node-b" maxInt64).insert "node-c" maxInt64).insert "node-d" 2

/-- The arguments of one call of `JiraBackoff`. -/
structure Call where
  min : Duration
  max : Duration
  attemptNum : Int
  resp : Option Response

/-- A sequence of calls of `JiraBackoff` on one receiver, in order; a panic ends the run. -/
def runCalls (arch : Arch) : RateLimitInfo → List Call → Except GoPanic RateLimitInfo
  | m, [] => .ok m
  | m, c :: cs =>
    match JiraBackoff arch m c.min c.max c.attemptNum c.resp with
    | .error p => .error p
    | .ok (m', _) => runCalls arch m' cs

instance : DecidableEq (Except GoPanic RateLimitInfo) := fun a b =>
  match a, b with
  | .ok x, .ok y =>
    if h : x = y then isTrue (by rw [h]) else isFalse (by intro h2; cases h2; exact h rfl)
  | .error x, .error y =>
    if h : x = y then isTrue (by rw [h]) else isFalse (by intro h2; cases h2; exact h rfl)
  | .ok _, .error _ => isFalse (by intro h; cases h)
  | .error _, .ok _ => isFalse (by intro h; cases h)

/-- A sequence of five calls: node-1 reports 5, node-2 reports 3, a call without a
response, node-1 reports 2, and a 429 response of node-3 without a fill rate. -/
def sampleCalls : List Call :=
  [⟨Second, 30 * Second, 0, some (rateLimitResponse 429 "node-1" "60" "15" "5")⟩,
    ⟨Second, 30 * Second, 1, some (rateLimitResponse 429 "node-2" "60" "15" "3")⟩,
    ⟨Second, 30 * Second, 2, none⟩,
    ⟨Second, 30 * Second, 3, some (rateLimitResponse 429 "node-1" "60" "15" "2")⟩,
    ⟨Second, 30 * Second, 4, some (rateLimitResponse 429 "node-3" "60" "" "9")⟩]

/-- The node id and the `Retry-After` value carried by a response, when it is a 429
response with all four fields present and valid. -/
def recordedWrite (resp : Option Response) : Option (String × Int) :=
  match resp with
  | none => none
  | some r =>
    if r.StatusCode = StatusTooManyRequests ∧ Header.Get r.Header "x-anodeid" ≠ "" then
      match Atoi (Header.Get r.Header "x-ratelimit-interval-seconds"),
        Atoi (Header.Get r.Header "x-ratelimit-fillrate"),
        Atoi (Header.Get r.Header "Retry-After") with
      | some _, some _, some retryAfter => some (Header.Get r.Header "x-anodeid", retryAfter)
      | _, _, _ => none
    else none

/-- The `Retry-After` value of the last response of a sequence of calls that carries the
given node id with all four valid fields, if there is one. -/
def lastWrite (nodeId : String) : List Call → Option Int
  | [] => none
  | c :: cs =>
    match lastWrite nodeId cs with
    | some v => some v
    | none =>
      match recordedWrite c.resp with
      | some (k, v) => if k = nodeId then some v else none
      | none => none

/-! ## The command `jira-tester` -/

/-- The set `knownAuthTypes`. -/
def knownAuthTypes : List String := ["bearer", "basic", "negotiate"]

/-- The offset of the first occurrence of a character in a list of characters. -/
def indexChar (sep : Char) : List Char → Option Nat
  | [] => none
  | c :: cs => if c = sep then some 0 else (indexChar sep cs).map (· + 1)

/-- The function `strings.Index` for a separator of one ASCII character: the offset of
its first occurrence, or -1. -/
def stringsIndex (s : String) (sep : Char) : Int :=
  match indexChar sep s.toList with
  | some i => (i : Int)
  | none => -1

/-- The function `strings.ToLower`: `unicode.ToLower`, given as `toLowerRune`, applied to
every character. -/
def stringsToLower (toLowerRune : Char → Char) (s : String) : String :=
  String.mk (s.toList.map toLowerRune)

/-- The function `maskAuthorizationHeader`.  The Unicode tables of the standard library
are parameters: `equalFold` is `strings.EqualFold` and `toLowerRune` is
`unicode.ToLower`.  Offsets and lengths count characters; the separator is one byte, so
the cut `value[0:i]` and the two comparisons are those of the byte offsets. -/
def maskAuthorizationHeader (equalFold : String → String → Bool) (toLowerRune : Char → Char)
    (key value : String) : String :=
  if !equalFold key "Authorization" then value
  else if value.length = 0 then ""
  else
    let i := stringsIndex value ' '
    let authType := if i > 0 then String.mk (value.toList.take i.toNat) else value
    if !knownAuthTypes.contains (stringsToLower toLowerRune authType) then "<masked>"
    else if value.length > authType.length + 1 then authType ++ " <masked>"
    else authType

/-- A case-insensitive comparison of ASCII strings, an instance of `strings.EqualFold`
on such strings. -/
def asciiEqualFold (a b : String) : Bool :=
  a.toList.map Char.toLower == b.toList.map Char.toLower

/-- The authentication scheme of a header value: what stands before its first space,
or the whole value when it has no space or starts with one. -/
def authScheme (value : String) : String :=
  if ' ' ∈ value.toList ∧ value.toList.head? ≠ some ' ' then
    String.mk (value.toList.takeWhile (fun c => c != ' '))
  else value

/-! ## Machine arithmetic -/

theorem wrapInt64_of_inInt64 {z : Int} (h : InInt64 z) : wrapInt64 z = z := by
  unfold InInt64 minInt64 maxInt64 at h
  unfold wrapInt64
  omega

theorem wrapInt64_wrap_add (a b : Int) : wrapInt64 (wrapInt64 a + b) = wrapInt64 (a + b) := by
  unfold wrapInt64
  omega

theorem wrapInt64_eq_zero_iff (z : Int) : wrapInt64 z = 0 ↔ (2 : Int) ^ 64 ∣ z := by
  unfold wrapInt64
  omega

theorem wrapInt64_seconds (q : Int) (h0 : -9223372036 ≤ q) (h1 : q ≤ 9223372036) :
    wrapInt64 (wrapInt64 q * Second) = q * Second := by
  have h : wrapInt64 q = q := by
    unfold wrapInt64
    omega
  rw [h]
  unfold wrapInt64 Second
  omega

/-! ## The sum of a table -/

theorem foldl_sumStep (l : List (Sigma fun _ : String => Int)) (x : Int) :
    List.foldl (fun d s => sumStep d s.1 s.2) (wrapInt64 x) l =
      wrapInt64 (x + (l.map Sigma.snd).sum) := by
  induction l generalizing x with
  | nil => simp
  | cons s l ih =>
    have hstep : sumStep (wrapInt64 x) s.1 s.2 = wrapInt64 (x + s.2) := by
      unfold sumStep
      exact wrapInt64_wrap_add _ _
    rw [List.foldl_cons, hstep, ih, List.map_cons, List.sum_cons, add_assoc]

theorem sumMapValues_some (t : Table) : sumMapValues (some t) = wrapInt64 (tableTotal t) := by
  induction t using Finmap.induction_on with
  | H a =>
    have h := foldl_sumStep a.entries 0
    have h0 : wrapInt64 0 = 0 := by decide
    rw [h0, zero_add] at h
    simpa [sumMapValues, tableTotal, Finmap.foldl] using h

theorem tableTotal_insert (k : String) (v : Int) (t : Table) :
    tableTotal (t.insert k v) = v + tableTotal (t.erase k) := by
  induction t using Finmap.induction_on with
  | H a => simp [tableTotal, AList.insert_entries, AList.erase]

/-! ## Reading the headers -/

theorem Atoi_empty : Atoi "" = none := by decide

theorem getResponseHeaderInt_of_some {resp : Response} {key : String} {v : Int}
    (h : Atoi (Header.Get resp.Header key) = some v) :
    getResponseHeaderInt resp key = (v, true) := by
  have hne : Header.Get resp.Header key ≠ "" := by
    intro h0
    rw [h0, Atoi_empty] at h
    cases h
  unfold getResponseHeaderInt
  rw [if_pos hne, h]

theorem getResponseHeaderInt_of_none {resp : Response} {key : String}
    (h : Header.Get resp.Header key = "" ∨ Atoi (Header.Get resp.Header key) = none) :
    getResponseHeaderInt resp key = (0, false) := by
  unfold getResponseHeaderInt
  rcases h with h | h
  · rw [if_neg (by simp [h])]
  · rw [h]
    split <;> rfl

theorem getResponseHeaderString_of_ne {resp : Response} {key : String}
    (h : Header.Get resp.Header key ≠ "") :
    getResponseHeaderString resp key = (Header.Get resp.Header key, true) := by
  unfold getResponseHeaderString
  rw [if_pos h]

theorem getResponseHeaderString_of_empty {resp : Response} {key : String}
    (h : Header.Get resp.Header key = "") :
    getResponseHeaderString resp key = ("", false) := by
  unfold getResponseHeaderString
  rw [if_neg (by simp [h])]

/-! ## The branches of `JiraBackoff` -/

theorem JiraBackoff_nil (arch : Arch) (m : RateLimitInfo) (min max : Duration)
    (attemptNum : Int) :
    JiraBackoff arch m min max attemptNum none =
      .ok (m, simpleBackOff arch min max attemptNum) := rfl

theorem JiraBackoff_other_status (arch : Arch) (m : RateLimitInfo) (min max : Duration)
    (attemptNum : Int) (resp : Response) (hs : resp.StatusCode ≠ StatusTooManyRequests) :
    JiraBackoff arch m min max attemptNum (some resp) =
      .ok (m, simpleBackOff arch min max attemptNum) := by
  unfold JiraBackoff
  simp only [if_neg hs]

theorem JiraBackoff_missing (arch : Arch) (m : RateLimitInfo) (min max : Duration)
    (attemptNum : Int) (resp : Response)
    (h : Header.Get resp.Header "x-anodeid" = "" ∨
      (Header.Get resp.Header "x-ratelimit-interval-seconds" = "" ∨
        Atoi (Header.Get resp.Header "x-ratelimit-interval-seconds") = none) ∨
      (Header.Get resp.Header "x-ratelimit-fillrate" = "" ∨
        Atoi (Header.Get resp.Header "x-ratelimit-fillrate") = none) ∨
      (Header.Get resp.Header "Retry-After" = "" ∨
        Atoi (Header.Get resp.Header "Retry-After") = none)) :
    JiraBackoff arch m min max attemptNum (some resp) =
      .ok (m, simpleBackOff arch min max attemptNum) := by
  unfold JiraBackoff
  by_cases hs : resp.StatusCode = StatusTooManyRequests
  · simp only [if_pos hs]
    rcases h with h | h | h | h
    · simp [getResponseHeaderString_of_empty h]
    · simp [getResponseHeaderInt_of_none h]
    · simp [getResponseHeaderInt_of_none h]
    · simp [getResponseHeaderInt_of_none h]
  · simp only [if_neg hs]

theorem JiraBackoff_recorded (arch : Arch) (data : Table) (min max : Duration)
    (attemptNum : Int) (resp : Response) (nodeId : String) (interval fillRate retryAfter : Int)
    (hs : resp.StatusCode = StatusTooManyRequests)
    (hN : Header.Get resp.Header "x-anodeid" = nodeId) (hNe : nodeId ≠ "")
    (hI : Atoi (Header.Get resp.Header "x-ratelimit-interval-seconds") = some interval)
    (hF : Atoi (Header.Get resp.Header "x-ratelimit-fillrate") = some fillRate)
    (hR : Atoi (Header.Get resp.Header "Retry-After") = some retryAfter) :
    JiraBackoff arch ⟨some data⟩ min max attemptNum (some resp) =
      if sumMapValues (some (data.insert nodeId retryAfter)) = 0 then
        if fillRate = 0 then .error .integerDivideByZero
        else .ok (⟨some (data.insert nodeId retryAfter)⟩,
          wrapInt64 (wrapInt64 (Int.tdiv interval fillRate) * Second))
      else .ok (⟨some (data.insert nodeId retryAfter)⟩, simpleBackOff arch min max attemptNum) := by
  subst hN
  unfold JiraBackoff
  simp only [if_pos hs, getResponseHeaderString_of_ne hNe, getResponseHeaderInt_of_some hI,
    getResponseHeaderInt_of_some hF, getResponseHeaderInt_of_some hR, goDiv]
  by_cases h0 : sumMapValues (some (data.insert (Header.Get resp.Header "x-anodeid") retryAfter)) = 0
  · by_cases hf : fillRate = 0 <;> simp [h0, hf]
  · simp [h0]

theorem JiraBackoff_nil_map (arch : Arch) (min max : Duration)
    (attemptNum : Int) (resp : Response) (nodeId : String) (interval fillRate retryAfter : Int)
    (hs : resp.StatusCode = StatusTooManyRequests)
    (hN : Header.Get resp.Header "x-anodeid" = nodeId) (hNe : nodeId ≠ "")
    (hI : Atoi (Header.Get resp.Header "x-ratelimit-interval-seconds") = some interval)
    (hF : Atoi (Header.Get resp.Header "x-ratelimit-fillrate") = some fillRate)
    (hR : Atoi (Header.Get resp.Header "Retry-After") = some retryAfter) :
    JiraBackoff arch ⟨none⟩ min max attemptNum (some resp) =
      .error .assignmentToEntryInNilMap := by
  subst hN
  unfold JiraBackoff
  simp [if_pos hs, getResponseHeaderString_of_ne hNe, getResponseHeaderInt_of_some hI,
    getResponseHeaderInt_of_some hF, getResponseHeaderInt_of_some hR]

/-! ## Conversion of integers to `float64` -/

theorem dropBits_of_lt (fuel a : Nat) (h : a < 2 ^ 53) : dropBits fuel a = 0 := by
  cases fuel with
  | zero => rfl
  | succ fuel => rw [dropBits, if_pos h]

theorem dropBits_spec (fuel : Nat) : ∀ a : Nat, a ≤ fuel → 2 ^ 53 ≤ a →
    1 ≤ dropBits fuel a ∧ 2 ^ 52 ≤ a / 2 ^ dropBits fuel a ∧
      a / 2 ^ dropBits fuel a < 2 ^ 53 := by
  induction fuel with
  | zero =>
    intro a h ha
    omega
  | succ fuel ih =>
    intro a h ha
    have hnot : ¬ a < 2 ^ 53 := by omega
    rw [dropBits, if_neg hnot]
    by_cases hlt : a / 2 < 2 ^ 53
    · rw [dropBits_of_lt fuel _ hlt]
      refine ⟨by omega, ?_, ?_⟩
      · simp only [zero_add, pow_one]
        omega
      · simpa using hlt
    · obtain ⟨_, h2, h3⟩ := ih (a / 2) (by omega) (by omega)
      have hdiv : a / 2 ^ (dropBits fuel (a / 2) + 1) = a / 2 / 2 ^ dropBits fuel (a / 2) := by
        rw [pow_succ, Nat.mul_comm, Nat.div_div_eq_div_mul]
      rw [hdiv]
      exact ⟨by omega, h2, h3⟩

theorem dvd_of_exact53 {a e : Nat} (hx : Exact53 a) (he : 2 ^ 52 ≤ a / 2 ^ e) :
    2 ^ e ∣ a := by
  obtain ⟨m, k, rfl, hm⟩ := hx
  by_cases hek : e ≤ k
  · exact Dvd.dvd.mul_left (pow_dvd_pow 2 hek) m
  · exfalso
    obtain ⟨j, rfl⟩ : ∃ j, e = k + (j + 1) := ⟨e - k - 1, by omega⟩
    have h1 : m * 2 ^ k / 2 ^ (k + (j + 1)) = m / 2 ^ (j + 1) := by
      rw [pow_add, ← Nat.div_div_eq_div_mul, Nat.mul_div_cancel _ (by positivity)]
    rw [h1] at he
    have h2 : m / 2 ^ (j + 1) ≤ m / 2 := by
      apply Nat.div_le_div_left _ (by norm_num)
      calc 2 = 2 ^ 1 := by norm_num
        _ ≤ 2 ^ (j + 1) := Nat.pow_le_pow_right (by norm_num) (by omega)
    omega

theorem roundToFloat64_of_exact53 (z : Int) (hx : Exact53 z.natAbs) :
    roundToFloat64 z = z := by
  unfold roundToFloat64
  by_cases hlt : z.natAbs < 2 ^ 53
  · simp only [if_pos hlt]
  · simp only [if_neg hlt]
    obtain ⟨he1, he2, _⟩ := dropBits_spec z.natAbs z.natAbs le_rfl (by omega)
    have hdvd := dvd_of_exact53 hx he2
    have hmod : z.natAbs % 2 ^ dropBits z.natAbs z.natAbs = 0 := Nat.mod_eq_zero_of_dvd hdvd
    have hpos : 0 < 2 ^ (dropBits z.natAbs z.natAbs - 1) := by positivity
    rw [hmod, if_neg (by omega), Nat.div_mul_cancel hdvd]
    exact Int.sign_mul_natAbs z

theorem exact53_mul_pow {a : Nat} (hx : Exact53 a) (n : Nat) : Exact53 (a * 2 ^ n) := by
  obtain ⟨m, k, rfl, hm⟩ := hx
  exact ⟨m, k + n, by rw [pow_add, Nat.mul_assoc], hm⟩

theorem roundToFloat64_natAbs (z : Int) (hge : 2 ^ 53 ≤ z.natAbs) :
    ∃ q : Nat, 2 ^ 52 ≤ q ∧ q ≤ 2 ^ 53 ∧
      roundToFloat64 z = Int.sign z * ((q * 2 ^ dropBits z.natAbs z.natAbs : Nat) : Int) := by
  obtain ⟨_, he2, he3⟩ := dropBits_spec z.natAbs z.natAbs le_rfl hge
  unfold roundToFloat64
  simp only [if_neg (show ¬ z.natAbs < 2 ^ 53 by omega)]
  split
  · exact ⟨_, by omega, by omega, rfl⟩
  · exact ⟨_, he2, by omega, rfl⟩

theorem exact53_roundToFloat64 (z : Int) : Exact53 (roundToFloat64 z).natAbs := by
  by_cases hlt : z.natAbs < 2 ^ 53
  · have : roundToFloat64 z = z := by
      unfold roundToFloat64
      simp only [if_pos hlt]
    rw [this]
    exact ⟨z.natAbs, 0, by simp, hlt⟩
  · obtain ⟨q, _, hq2, hq⟩ := roundToFloat64_natAbs z (by omega)
    have hz : z ≠ 0 := by
      intro h0
      rw [h0] at hlt
      simp at hlt
    have habs : (roundToFloat64 z).natAbs = q * 2 ^ dropBits z.natAbs z.natAbs := by
      rw [hq, Int.natAbs_mul, Int.natAbs_sign_of_nonzero hz, one_mul, Int.natAbs_ofNat]
    rw [habs]
    by_cases hq53 : q < 2 ^ 53
    · exact ⟨q, _, rfl, hq53⟩
    · have hqe : q = 2 ^ 53 := by omega
      refine ⟨2 ^ 52, dropBits z.natAbs z.natAbs + 1, ?_, by norm_num⟩
      rw [hqe, pow_succ]
      ring

theorem roundToFloat64_pos {z : Int} (hz : 0 < z) : 0 < roundToFloat64 z := by
  by_cases hlt : z.natAbs < 2 ^ 53
  · have : roundToFloat64 z = z := by
      unfold roundToFloat64
      simp only [if_pos hlt]
    rw [this]
    exact hz
  · obtain ⟨q, hq1, _, hq⟩ := roundToFloat64_natAbs z (by omega)
    rw [hq, Int.sign_eq_one_of_pos hz, one_mul]
    have : 0 < q * 2 ^ dropBits z.natAbs z.natAbs := by positivity
    exact_mod_cast this

/-! ## The exponential schedule -/

theorem simpleBackOff_of_inf (arch : Arch) (min max attemptNum : Int) (b : Bool)
    (h : Float64.mul (powTwo attemptNum) (Float64.ofInt64 min) = .inf b) : simpleBackOff arch min max attemptNum = max := by
  unfold simpleBackOff
  rw [h]
  simp [Float64.ne, Float64.ofInt64]

theorem simpleBackOff_of_nan (arch : Arch) (min max attemptNum : Int)
    (h : Float64.mul (powTwo attemptNum) (Float64.ofInt64 min) = .nan) : simpleBackOff arch min max attemptNum = max := by
  unfold simpleBackOff
  rw [h]
  simp [Float64.ne, Float64.ofInt64]

theorem roundToFloat64_minInt64 : roundToFloat64 minInt64 = minInt64 := by decide

theorem roundToFloat64_maxInt64 : roundToFloat64 maxInt64 = 2 ^ 63 := by decide

theorem toInt64_finite_fit (arch : Arch) (p : Int) (h1 : minInt64 ≤ p) (h2 : p ≤ maxInt64) :
    Float64.toInt64 arch (.finite p 0) = p := by
  simp [Float64.toInt64, h1, h2]

theorem toInt64_finite_big_amd64 (p : Int) (h : maxInt64 < p) :
    Float64.toInt64 .amd64 (.finite p 0) = minInt64 := by
  simp [Float64.toInt64, not_le.mpr h]

theorem toInt64_finite_big_arm64 (p : Int) (h : maxInt64 < p) :
    Float64.toInt64 .arm64 (.finite p 0) = maxInt64 := by
  have hp : ¬ p < 0 := by
    unfold maxInt64 at h
    omega
  simp [Float64.toInt64, not_le.mpr h, hp]

theorem ne_ofInt64_finite (z p : Int) :
    Float64.ne (Float64.ofInt64 z) (.finite p 0) = (roundToFloat64 z != p) := by
  simp [Float64.ne, Float64.ofInt64]

theorem simpleBackOff_of_finite (arch : Arch) (min max attemptNum p : Int)
    (h : Float64.mul (powTwo attemptNum) (Float64.ofInt64 min) = .finite p 0) (hp : 0 < p) (hx : Exact53 p.natAbs)
    (hmax : max ≤ maxInt64) : simpleBackOff arch min max attemptNum = Min.min p max := by
  unfold simpleBackOff
  rw [h]
  dsimp only
  by_cases hfit : p ≤ maxInt64
  · have hlow : minInt64 ≤ p := by
      unfold minInt64
      omega
    rw [toInt64_finite_fit arch p hlow hfit, ne_ofInt64_finite,
      roundToFloat64_of_exact53 p hx]
    by_cases hgt : p > max
    · simp [hgt, min_eq_right (le_of_lt hgt)]
    · simp [hgt, min_eq_left (not_lt.mp hgt)]
  · have hbig : maxInt64 < p := not_le.mp hfit
    have hpm : max < p := lt_of_le_of_lt hmax hbig
    rw [min_eq_right (le_of_lt hpm)]
    cases arch with
    | amd64 =>
      rw [toInt64_finite_big_amd64 p hbig, ne_ofInt64_finite, roundToFloat64_minInt64]
      have hne : minInt64 ≠ p := by
        unfold minInt64
        omega
      simp [hne]
    | arm64 =>
      rw [toInt64_finite_big_arm64 p hbig, ne_ofInt64_finite, roundToFloat64_maxInt64]
      by_cases hm : max = maxInt64
      · simp [hm]
      · have : maxInt64 > max := lt_of_le_of_ne hmax hm
        simp [this]

theorem simpleBackOff_eq_min (arch : Arch) (min max attemptNum : Int)
    (hn : 0 ≤ attemptNum) (hmin : 0 < min) (hmax : max ≤ maxInt64) :
    simpleBackOff arch min max attemptNum =
      Min.min (roundToFloat64 min * 2 ^ attemptNum.toNat) max := by
  have hf : 0 < roundToFloat64 min := roundToFloat64_pos hmin
  have hp : 0 < roundToFloat64 min * 2 ^ attemptNum.toNat := by positivity
  have hbig : (2 : Int) ^ 1024 ≤ roundToFloat64 min * 2 ^ attemptNum.toNat →
      Min.min (roundToFloat64 min * 2 ^ attemptNum.toNat) max = max := by
    intro hb
    apply min_eq_right
    have h63 : maxInt64 ≤ (2 : Int) ^ 1024 := by
      unfold maxInt64
      norm_num
    exact le_trans hmax (le_trans h63 hb)
  by_cases h1024 : 1024 ≤ attemptNum
  · have hpow : Float64.mul (powTwo attemptNum) (Float64.ofInt64 min) = .inf false := by
      unfold powTwo Float64.ofInt64
      simp only [if_pos h1024, Float64.mul, if_neg (ne_of_gt hf), not_lt.mpr (le_of_lt hf),
        decide_False, Bool.xor_false]
    rw [simpleBackOff_of_inf arch min max attemptNum false hpow, hbig]
    calc (2 : Int) ^ 1024 ≤ 2 ^ attemptNum.toNat :=
          pow_le_pow_right₀ (by norm_num) (by omega)
      _ = 1 * 2 ^ attemptNum.toNat := by ring
      _ ≤ roundToFloat64 min * 2 ^ attemptNum.toNat :=
          mul_le_mul_of_nonneg_right (by omega) (by positivity)
  · have hx : Exact53 (2 ^ attemptNum.toNat * roundToFloat64 min).natAbs := by
      have hx := exact53_mul_pow (exact53_roundToFloat64 min) attemptNum.toNat
      have habs : ((2 : Int) ^ attemptNum.toNat * roundToFloat64 min).natAbs =
          (roundToFloat64 min).natAbs * 2 ^ attemptNum.toNat := by
        rw [Int.natAbs_mul, Int.natAbs_pow, Nat.mul_comm]
        rfl
      rw [habs]
      exact hx
    have hp' : 0 < (2 : Int) ^ attemptNum.toNat * roundToFloat64 min := by positivity
    have hsub : ¬ ((2 : Int) ^ attemptNum.toNat * roundToFloat64 min).natAbs * 2 ^ 1022 <
        2 ^ (0 + 0) := by
      have : 0 < ((2 : Int) ^ attemptNum.toNat * roundToFloat64 min).natAbs :=
        Int.natAbs_pos.mpr (ne_of_gt hp')
      have h2 : 0 < 2 ^ 1022 := by positivity
      have := Nat.mul_pos this h2
      simp only [add_zero, pow_zero]
      omega
    have hmul : Float64.mul (powTwo attemptNum) (Float64.ofInt64 min) =
        if 2 ^ (1024 + (0 + 0)) ≤ (2 ^ attemptNum.toNat * roundToFloat64 min).natAbs then
          .inf (decide (2 ^ attemptNum.toNat * roundToFloat64 min < 0))
        else .finite (2 ^ attemptNum.toNat * roundToFloat64 min) (0 + 0) := by
      unfold powTwo Float64.ofInt64
      simp only [if_neg h1024, if_pos hn, Float64.mul, Float64.round, if_neg hsub,
        roundToFloat64_of_exact53 _ hx]
    by_cases hover : 2 ^ (1024 + (0 + 0)) ≤
        (2 ^ attemptNum.toNat * roundToFloat64 min).natAbs
    · rw [if_pos hover, decide_eq_false (not_lt.mpr (le_of_lt hp'))] at hmul
      rw [simpleBackOff_of_inf arch min max attemptNum false hmul, hbig]
      have habs := Int.natAbs_of_nonneg (le_of_lt hp')
      have hcast : ((2 ^ (1024 + (0 + 0)) : Nat) : Int) ≤
          (((2 : Int) ^ attemptNum.toNat * roundToFloat64 min).natAbs : Int) :=
        Int.ofNat_le.mpr hover
      rw [Nat.cast_pow, Nat.cast_ofNat] at hcast
      rw [mul_comm, ← habs]
      exact hcast
    · rw [if_neg hover] at hmul
      rw [mul_comm]
      exact simpleBackOff_of_finite arch min max attemptNum _ hmul hp' hx hmax

theorem roundToFloat64_of_le {z : Int} (h0 : 0 ≤ z) (h : z ≤ 2 ^ 53) : roundToFloat64 z = z := by
  apply roundToFloat64_of_exact53
  by_cases h53 : z = 2 ^ 53
  · exact ⟨1, 53, by rw [h53]; rfl, by norm_num⟩
  · exact ⟨z.natAbs, 0, by simp, by omega⟩

/-! ## Entries, lookups and totals -/

theorem mem_entries_iff (t : Table) (k : String) (v : Int) :
    (⟨k, v⟩ : Sigma fun _ : String => Int) ∈ t.entries ↔ t.lookup k = some v := by
  induction t using Finmap.induction_on with
  | H a =>
    rw [Finmap.lookup_toFinmap]
    exact AList.mem_lookup_iff.symm

theorem tableTotal_nonneg (t : Table) (h : ∀ k v, t.lookup k = some v → 0 ≤ v) :
    0 ≤ tableTotal t := by
  unfold tableTotal
  apply Multiset.sum_nonneg
  intro x hx
  obtain ⟨⟨k, v⟩, hs, rfl⟩ := Multiset.mem_map.mp hx
  exact h k v ((mem_entries_iff t k v).mp hs)

theorem tableTotal_erase_nonneg (t : Table) (nodeId : String)
    (h : ∀ k v, k ≠ nodeId → t.lookup k = some v → 0 ≤ v) :
    0 ≤ tableTotal (t.erase nodeId) := by
  apply tableTotal_nonneg
  intro k v hk
  by_cases hkn : k = nodeId
  · rw [hkn, Finmap.lookup_erase] at hk
    cases hk
  · rw [Finmap.lookup_erase_ne hkn] at hk
    exact h k v hkn hk

theorem tableTotal_eq_zero (t : Table) (h : ∀ k v, t.lookup k = some v → 0 ≤ v)
    (h0 : tableTotal t = 0) : ∀ k v, t.lookup k = some v → v = 0 := by
  intro k v hk
  have hall : ∀ x ∈ t.entries.map Sigma.snd, (0 : Int) ≤ x := by
    intro x hx
    obtain ⟨⟨k', v'⟩, hs, rfl⟩ := Multiset.mem_map.mp hx
    exact h k' v' ((mem_entries_iff t k' v').mp hs)
  have hv : v ∈ t.entries.map Sigma.snd :=
    Multiset.mem_map.mpr ⟨⟨k, v⟩, (mem_entries_iff t k v).mpr hk, rfl⟩
  have hle : v ≤ (t.entries.map Sigma.snd).sum :=
    Multiset.single_le_sum hall v hv
  unfold tableTotal at h0
  have := h k v hk
  omega

theorem sumMapValues_ne_zero (t : Table) (h1 : 0 < tableTotal t) (h2 : tableTotal t < 2 ^ 64) :
    sumMapValues (some t) ≠ 0 := by
  rw [sumMapValues_some]
  unfold wrapInt64
  omega

/-! ## Every way `JiraBackoff` returns -/

theorem JiraBackoff_ok_cases (arch : Arch) (m m' : RateLimitInfo) (min max attemptNum : Int)
    (resp : Option Response) (d : Int)
    (h : JiraBackoff arch m min max attemptNum resp = .ok (m', d)) :
    (m' = m ∧ d = simpleBackOff arch min max attemptNum) ∨
    ∃ (r : Response) (data : Table) (nodeId : String) (interval fillRate retryAfter : Int),
      resp = some r ∧ r.StatusCode = StatusTooManyRequests ∧
      Header.Get r.Header "x-anodeid" = nodeId ∧ nodeId ≠ "" ∧
      Atoi (Header.Get r.Header "x-ratelimit-interval-seconds") = some interval ∧
      Atoi (Header.Get r.Header "x-ratelimit-fillrate") = some fillRate ∧
      Atoi (Header.Get r.Header "Retry-After") = some retryAfter ∧
      m.Data = some data ∧ m' = ⟨some (data.insert nodeId retryAfter)⟩ ∧
      ((sumMapValues (some (data.insert nodeId retryAfter)) = 0 ∧ fillRate ≠ 0 ∧
          d = wrapInt64 (wrapInt64 (Int.tdiv interval fillRate) * Second)) ∨
        (sumMapValues (some (data.insert nodeId retryAfter)) ≠ 0 ∧
          d = simpleBackOff arch min max attemptNum)) := by
  have hsimple : ∀ {x : RateLimitInfo × Int},
      (Except.ok (m, simpleBackOff arch min max attemptNum) : Except GoPanic _) = .ok x →
      x.1 = m ∧ x.2 = simpleBackOff arch min max attemptNum := by
    intro x hx
    cases hx
    exact ⟨rfl, rfl⟩
  cases resp with
  | none =>
    rw [JiraBackoff_nil] at h
    exact Or.inl (hsimple h)
  | some r =>
    by_cases hs : r.StatusCode = StatusTooManyRequests
    · by_cases hN : Header.Get r.Header "x-anodeid" = ""
      · rw [JiraBackoff_missing arch m min max attemptNum r (Or.inl hN)] at h
        exact Or.inl (hsimple h)
      · cases hI : Atoi (Header.Get r.Header "x-ratelimit-interval-seconds") with
        | none =>
          rw [JiraBackoff_missing arch m min max attemptNum r
            (Or.inr (Or.inl (Or.inr hI)))] at h
          exact Or.inl (hsimple h)
        | some interval =>
          cases hF : Atoi (Header.Get r.Header "x-ratelimit-fillrate") with
          | none =>
            rw [JiraBackoff_missing arch m min max attemptNum r
              (Or.inr (Or.inr (Or.inl (Or.inr hF))))] at h
            exact Or.inl (hsimple h)
          | some fillRate =>
            cases hR : Atoi (Header.Get r.Header "Retry-After") with
            | none =>
              rw [JiraBackoff_missing arch m min max attemptNum r
                (Or.inr (Or.inr (Or.inr (Or.inr hR))))] at h
              exact Or.inl (hsimple h)
            | some retryAfter =>
              obtain ⟨Data⟩ := m
              cases Data with
              | none =>
                rw [JiraBackoff_nil_map arch min max attemptNum r _ interval fillRate
                  retryAfter hs rfl hN hI hF hR] at h
                cases h
              | some data =>
                rw [JiraBackoff_recorded arch data min max attemptNum r _ interval fillRate
                  retryAfter hs rfl hN hI hF hR] at h
                refine Or.inr ⟨r, data, _, interval, fillRate, retryAfter, rfl, hs, rfl, hN,
                  hI, hF, hR, rfl, ?_⟩
                by_cases h0 : sumMapValues
                    (some (data.insert (Header.Get r.Header "x-anodeid") retryAfter)) = 0
                · rw [if_pos h0] at h
                  by_cases hf : fillRate = 0
                  · rw [if_pos hf] at h
                    cases h
                  · rw [if_neg hf] at h
                    cases h
                    exact ⟨rfl, Or.inl ⟨h0, hf, rfl⟩⟩
                · rw [if_neg h0] at h
                  cases h
                  exact ⟨rfl, Or.inr ⟨h0, rfl⟩⟩
    · rw [JiraBackoff_other_status arch m min max attemptNum r hs] at h
      exact Or.inl (hsimple h)

theorem reachable_data (arch : Arch) (m : RateLimitInfo) (h : Reachable arch m) :
    ∃ data : Table, m.Data = some data := by
  induction h with
  | start => exact ⟨∅, rfl⟩
  | call min max attemptNum resp d _ hcall ih =>
    rcases JiraBackoff_ok_cases arch _ _ min max attemptNum resp d hcall with
      ⟨hm, _⟩ | ⟨_, _, _, _, _, _, _, _, _, _, _, _, _, _, hm, _⟩
    · rw [hm]
      exact ih
    · rw [hm]
      exact ⟨_, rfl⟩

/-! ## The steady-state interval -/

/-- C1 (amended): for a 429 response with a non-empty `x-anodeid`, integer
`x-ratelimit-interval-seconds` and `x-ratelimit-fillrate` with `fillRate ≠ 0`, and
`Retry-After = 0`, applied to a non-nil table whose values sum to zero once the node's
entry is set to 0, `JiraBackoff` records the node and returns exactly
`interval / fillRate` seconds (quotient truncated toward zero), whatever `attemptNum`,
`min` and `max` are, provided that many seconds fit in a 64-bit duration, that is
`|interval / fillRate| ≤ 9223372036`. -/
theorem JiraBackoff_steady_state_interval (arch : Arch) (data : Table)
    (min max attemptNum : Int) (resp : Response) (nodeId : String) (interval fillRate : Int)
    (hs : resp.StatusCode = StatusTooManyRequests)
    (hN : Header.Get resp.Header "x-anodeid" = nodeId) (hNe : nodeId ≠ "")
    (hI : Atoi (Header.Get resp.Header "x-ratelimit-interval-seconds") = some interval)
    (hF : Atoi (Header.Get resp.Header "x-ratelimit-fillrate") = some fillRate)
    (hR : Atoi (Header.Get resp.Header "Retry-After") = some 0)
    (hf : fillRate ≠ 0)
    (hsum : sumMapValues (some (data.insert nodeId 0)) = 0)
    (hq : -9223372036 ≤ Int.tdiv interval fillRate ∧ Int.tdiv interval fillRate ≤ 9223372036) :
    JiraBackoff arch ⟨some data⟩ min max attemptNum (some resp) =
      .ok (⟨some (data.insert nodeId 0)⟩, Int.tdiv interval fillRate * Second) := by
  rw [JiraBackoff_recorded arch data min max attemptNum resp nodeId interval fillRate 0
    hs hN hNe hI hF hR, if_pos hsum, if_neg hf]
  rw [wrapInt64_seconds _ hq.1 hq.2]

/-- C1, witness: the test suite's response (interval 60, fill rate 15, `Retry-After` 0)
on the empty table gives 4 seconds, here at attempt 7 with bounds of 1 and 30 seconds. -/
theorem JiraBackoff_steady_state_interval_witness :
    JiraBackoff .amd64 ⟨some ∅⟩ Second (30 * Second) 7
        (some (rateLimitResponse 429 "node-1" "60" "15" "0")) =
      .ok (⟨some ((∅ : Table).insert "node-1" 0)⟩, Int.tdiv 60 15 * Second) ∧
    Int.tdiv 60 15 * Second = 4 * Second :=
  ⟨JiraBackoff_steady_state_interval .amd64 ∅ Second (30 * Second) 7
    (rateLimitResponse 429 "node-1" "60" "15" "0") "node-1" 60 15
    (by decide) (by decide) (by decide) (by decide) (by decide) (by decide) (by decide)
    (by decide) (by decide), by decide⟩

/-- C1 as stated fails: with interval 9223372037 and fill rate 1 the quotient in
seconds does not fit in a 64-bit duration, and the returned duration is negative. -/
theorem JiraBackoff_steady_state_overflow :
    Atoi "9223372037" = some 9223372037 ∧ Atoi "1" = some 1 ∧ Atoi "0" = some 0 ∧
    sumMapValues (some ((∅ : Table).insert "node-1" 0)) = 0 ∧
    JiraBackoff .amd64 ⟨some ∅⟩ Second (30 * Second) 0
        (some (rateLimitResponse 429 "node-1" "9223372037" "1" "0")) =
      .ok (⟨some ((∅ : Table).insert "node-1" 0)⟩, -9223372036709551616) ∧
    (-9223372036709551616 : Int) ≠ Int.tdiv 9223372037 1 * Second := by
  decide

/-! ## The exponential path on a rate-limited response -/

/-- C2 (amended): for a 429 response with all four headers present and valid and
`Retry-After > 0`, applied to a non-nil table whose other recorded waits are all
non-negative and, added to `Retry-After`, stay below `2 ^ 64` (so the 64-bit sum cannot
wrap around to zero; in particular on an empty table), `JiraBackoff` records the node
and returns `simpleBackOff min max attemptNum`, for every `attemptNum`: neither the
`Retry-After` value nor `interval / fillRate`. -/
theorem JiraBackoff_retry_after_positive (arch : Arch) (data : Table)
    (min max attemptNum : Int) (resp : Response) (nodeId : String)
    (interval fillRate retryAfter : Int)
    (hs : resp.StatusCode = StatusTooManyRequests)
    (hN : Header.Get resp.Header "x-anodeid" = nodeId) (hNe : nodeId ≠ "")
    (hI : Atoi (Header.Get resp.Header "x-ratelimit-interval-seconds") = some interval)
    (hF : Atoi (Header.Get resp.Header "x-ratelimit-fillrate") = some fillRate)
    (hR : Atoi (Header.Get resp.Header "Retry-After") = some retryAfter)
    (hr : 0 < retryAfter)
    (hothers : ∀ k v, k ≠ nodeId → data.lookup k = some v → 0 ≤ v)
    (hbound : tableTotal (data.erase nodeId) + retryAfter < 2 ^ 64) :
    JiraBackoff arch ⟨some data⟩ min max attemptNum (some resp) =
      .ok (⟨some (data.insert nodeId retryAfter)⟩, simpleBackOff arch min max attemptNum) := by
  have hnn := tableTotal_erase_nonneg data nodeId hothers
  have hne : sumMapValues (some (data.insert nodeId retryAfter)) ≠ 0 := by
    apply sumMapValues_ne_zero
    · rw [tableTotal_insert]
      omega
    · rw [tableTotal_insert]
      omega
  rw [JiraBackoff_recorded arch data min max attemptNum resp nodeId interval fillRate
    retryAfter hs hN hNe hI hF hR, if_neg hne]

/-- C2, witness: the test suite's response with `Retry-After` 2 on the empty table, third
attempt, bounds of 1 and 30 seconds: the exponential 4 seconds, not 2 seconds. -/
theorem JiraBackoff_retry_after_positive_witness :
    JiraBackoff .amd64 ⟨some ∅⟩ Second (30 * Second) 2
        (some (rateLimitResponse 429 "node-1" "60" "15" "2")) =
      .ok (⟨some ((∅ : Table).insert "node-1" 2)⟩, simpleBackOff .amd64 Second (30 * Second) 2) ∧
    simpleBackOff .amd64 Second (30 * Second) 0 = Second ∧
    simpleBackOff .amd64 Second (30 * Second) 1 = 2 * Second ∧
    simpleBackOff .amd64 Second (30 * Second) 2 = 4 * Second ∧
    simpleBackOff .amd64 Second (30 * Second) 3 = 8 * Second :=
  ⟨JiraBackoff_retry_after_positive .amd64 ∅ Second (30 * Second) 2
    (rateLimitResponse 429 "node-1" "60" "15" "2") "node-1" 60 15 2
    (by decide) (by decide) (by decide) (by decide) (by decide) (by decide) (by decide)
    (by intro k v _ h; simp at h) (by decide),
    by decide!, by decide!, by decide!, by decide!⟩

/-- C2 as stated fails: two other nodes that recorded the largest `int` and a
`Retry-After` of 2 sum to `2 ^ 64`, which is 0 in 64 bits, so the steady-state
interval (4 seconds) is returned instead of the exponential backoff (1 second). -/
theorem JiraBackoff_retry_after_wraps :
    Reachable .amd64 ⟨some saturatedTable⟩ ∧
    saturatedTable.lookup "node-1" = none ∧
    Finmap.all (fun _ v => decide (0 ≤ v)) saturatedTable = true ∧
    Atoi "2" = some 2 ∧
    JiraBackoff .amd64 ⟨some saturatedTable⟩ Second (30 * Second) 0
        (some (rateLimitResponse 429 "node-1" "60" "15" "2")) =
      .ok (⟨some (saturatedTable.insert "node-1" 2)⟩, 4 * Second) ∧
    simpleBackOff .amd64 Second (30 * Second) 0 = Second ∧
    4 * Second ≠ Second :=
  have h1 : Reachable .amd64 ⟨some ((∅ : Table).insert "node-a" maxInt64)⟩ :=
    Reachable.call Second (30 * Second) 0
      (some (rateLimitResponse 429 "node-a" "60" "15" "9223372036854775807")) Second
      Reachable.start (by decide!)
  have h2 : Reachable .amd64 ⟨some saturatedTable⟩ :=
    Reachable.call Second (30 * Second) 0
      (some (rateLimitResponse 429 "node-b" "60" "15" "9223372036854775807")) Second
      h1 (by decide!)
  ⟨h2,
    by decide, by decide, by decide, by decide, by decide!, by decide⟩

/-! ## Missing or malformed fields -/

/-- C3: a 429 response in which the node id is absent or empty, or in which one of
`x-ratelimit-interval-seconds`, `x-ratelimit-fillrate`, `Retry-After` is absent, empty
or not an integer, gets `simpleBackOff min max attemptNum`, whichever field it is and
whatever the other headers and the table (nil included) hold; so does a 429 response
without any header. -/
theorem JiraBackoff_missing_field (arch : Arch) (m : RateLimitInfo)
    (min max attemptNum : Int) (resp : Response)
    (_hs : resp.StatusCode = StatusTooManyRequests)
    (h : Header.Get resp.Header "x-anodeid" = "" ∨
      (Header.Get resp.Header "x-ratelimit-interval-seconds" = "" ∨
        Atoi (Header.Get resp.Header "x-ratelimit-interval-seconds") = none) ∨
      (Header.Get resp.Header "x-ratelimit-fillrate" = "" ∨
        Atoi (Header.Get resp.Header "x-ratelimit-fillrate") = none) ∨
      (Header.Get resp.Header "Retry-After" = "" ∨
        Atoi (Header.Get resp.Header "Retry-After") = none)) :
    JiraBackoff arch m min max attemptNum (some resp) =
        .ok (m, simpleBackOff arch min max attemptNum) ∧
      JiraBackoff arch m min max attemptNum (some ⟨StatusTooManyRequests, []⟩) =
        .ok (m, simpleBackOff arch min max attemptNum) :=
  ⟨JiraBackoff_missing arch m min max attemptNum resp h,
    JiraBackoff_missing arch m min max attemptNum ⟨StatusTooManyRequests, []⟩ (Or.inl rfl)⟩

/-- C3, witness: a 429 response on the nil table whose node id, interval and
`Retry-After` are valid and whose fill rate is not a number. -/
theorem JiraBackoff_missing_field_witness :
    JiraBackoff .arm64 ⟨none⟩ Second (30 * Second) 1
        (some (rateLimitResponse 429 "node-1" "60" "fast" "0")) =
      .ok (⟨none⟩, simpleBackOff .arm64 Second (30 * Second) 1) :=
  (JiraBackoff_missing_field .arm64 ⟨none⟩ Second (30 * Second) 1
    (rateLimitResponse 429 "node-1" "60" "fast" "0") (by decide)
    (Or.inr (Or.inr (Or.inl (Or.inr (by decide)))))).1

/-! ## No response, or a response that is not a 429 -/

/-- C4 (amended): for every `min`, `max`, `attemptNum` and receiver (nil table included),
`JiraBackoff` with a nil response returns what it returns with any response whose status
is not 429, namely `simpleBackOff min max attemptNum`, leaving the receiver as it was;
for `attemptNum ≥ 0` and `0 < min ≤ max` that duration is
`min (f * 2 ^ attemptNum) max`, where `f` is `min` rounded to the nearest `float64`,
and `f = min` whenever `min ≤ 2 ^ 53` nanoseconds. -/
theorem JiraBackoff_nil_response (arch : Arch) (m : RateLimitInfo)
    (min max attemptNum : Int) (resp : Response)
    (hs : resp.StatusCode ≠ StatusTooManyRequests) :
    JiraBackoff arch m min max attemptNum none =
        JiraBackoff arch m min max attemptNum (some resp) ∧
      JiraBackoff arch m min max attemptNum none =
        .ok (m, simpleBackOff arch min max attemptNum) ∧
      (0 ≤ attemptNum → 0 < min → min ≤ max → max ≤ maxInt64 →
        simpleBackOff arch min max attemptNum =
          Min.min (roundToFloat64 min * 2 ^ attemptNum.toNat) max) ∧
      (0 < min → min ≤ 2 ^ 53 → roundToFloat64 min = min) :=
  ⟨by rw [JiraBackoff_nil, JiraBackoff_other_status arch m min max attemptNum resp hs],
    JiraBackoff_nil arch m min max attemptNum,
    fun hn hmin _ hmax => simpleBackOff_eq_min arch min max attemptNum hn hmin hmax,
    fun hmin h53 => roundToFloat64_of_le (le_of_lt hmin) h53⟩

/-- C4, witness: the nil table, a 200 response, bounds of 1 and 30 seconds, fifth
attempt. -/
theorem JiraBackoff_nil_response_witness :
    JiraBackoff .amd64 ⟨none⟩ Second (30 * Second) 4 none =
        JiraBackoff .amd64 ⟨none⟩ Second (30 * Second) 4 (some ⟨200, []⟩) ∧
      JiraBackoff .amd64 ⟨none⟩ Second (30 * Second) 4 none =
        .ok (⟨none⟩, simpleBackOff .amd64 Second (30 * Second) 4) ∧
      simpleBackOff .amd64 Second (30 * Second) 4 =
        Min.min (roundToFloat64 Second * 2 ^ (4 : Int).toNat) (30 * Second) ∧
      roundToFloat64 Second = Second :=
  have h := JiraBackoff_nil_response .amd64 ⟨none⟩ Second (30 * Second) 4 ⟨200, []⟩
    (by decide)
  ⟨h.1, h.2.1, h.2.2.1 (by decide) (by decide) (by decide) (by decide),
    h.2.2.2 (by decide) (by decide)⟩

/-- C4 as stated fails: with `min = max = 2 ^ 53 + 1` nanoseconds and attempt 0 a nil
response gets `2 ^ 53` nanoseconds, one less than `min (min * 2 ^ 0) max`, on either
platform. -/
theorem JiraBackoff_nil_response_rounding :
    JiraBackoff .amd64 ⟨some ∅⟩ (2 ^ 53 + 1) (2 ^ 53 + 1) 0 none = .ok (⟨some ∅⟩, 2 ^ 53) ∧
    JiraBackoff .arm64 ⟨some ∅⟩ (2 ^ 53 + 1) (2 ^ 53 + 1) 0 none = .ok (⟨some ∅⟩, 2 ^ 53) ∧
    (2 ^ 53 : Int) ≠ Min.min ((2 ^ 53 + 1) * 2 ^ 0) (2 ^ 53 + 1) := by
  decide!

/-! ## The closed form of `simpleBackOff` -/

/-- C5 (amended): for every `attemptNum ≥ 0` and durations `0 < min ≤ max`,
`simpleBackOff min max attemptNum` equals `min (f * 2 ^ attemptNum) max` in exact
arithmetic, where `f` is `min` rounded to the nearest `float64` (`f = min` whenever
`min ≤ 2 ^ 53` nanoseconds): it is `f * 2 ^ attemptNum` when that product is at most
`max`, and exactly `max` when the product exceeds `max`, which covers every product
beyond the 64-bit range. -/
theorem simpleBackOff_exponential (arch : Arch) (min max attemptNum : Int)
    (hn : 0 ≤ attemptNum) (hmin : 0 < min) (_hle : min ≤ max) (hmax : max ≤ maxInt64) :
    simpleBackOff arch min max attemptNum =
        Min.min (roundToFloat64 min * 2 ^ attemptNum.toNat) max ∧
      (min ≤ 2 ^ 53 → roundToFloat64 min = min) ∧
      (roundToFloat64 min * 2 ^ attemptNum.toNat ≤ max →
        simpleBackOff arch min max attemptNum = roundToFloat64 min * 2 ^ attemptNum.toNat) ∧
      (max < roundToFloat64 min * 2 ^ attemptNum.toNat →
        simpleBackOff arch min max attemptNum = max) ∧
      (maxInt64 < roundToFloat64 min * 2 ^ attemptNum.toNat →
        simpleBackOff arch min max attemptNum = max) := by
  have h := simpleBackOff_eq_min arch min max attemptNum hn hmin hmax
  refine ⟨h, fun h53 => roundToFloat64_of_le (le_of_lt hmin) h53, ?_, ?_, ?_⟩
  · intro hle
    rw [h, min_eq_left hle]
  · intro hlt
    rw [h, min_eq_right (le_of_lt hlt)]
  · intro hlt
    rw [h, min_eq_right (le_of_lt (lt_of_le_of_lt hmax hlt))]

/-- C5, witness: bounds of 1 and 30 seconds at attempt 3 give 8 seconds, and at
attempt 70, where the product is beyond 64 bits, 30 seconds. -/
theorem simpleBackOff_exponential_witness :
    simpleBackOff .amd64 Second (30 * Second) 3 =
        Min.min (roundToFloat64 Second * 2 ^ (3 : Int).toNat) (30 * Second) ∧
      Min.min (roundToFloat64 Second * 2 ^ (3 : Int).toNat) (30 * Second) = 8 * Second ∧
      simpleBackOff .arm64 Second (30 * Second) 70 = 30 * Second :=
  ⟨(simpleBackOff_exponential .amd64 Second (30 * Second) 3 (by decide) (by decide)
      (by decide) (by decide)).1,
    by decide,
    (simpleBackOff_exponential .arm64 Second (30 * Second) 70 (by decide) (by decide)
      (by decide) (by decide)).2.2.2.2 (by decide)⟩

/-- C5 as stated fails: with `min = 2 ^ 53 + 1` nanoseconds, `max = 2 ^ 62` and attempt 1
the result is `2 ^ 54`, while `min * 2 ^ 1 = 2 ^ 54 + 2` is at most `max`. -/
theorem simpleBackOff_rounding :
    simpleBackOff .amd64 (2 ^ 53 + 1) (2 ^ 62) 1 = 2 ^ 54 ∧
    simpleBackOff .arm64 (2 ^ 53 + 1) (2 ^ 62) 1 = 2 ^ 54 ∧
    Min.min (((2 : Int) ^ 53 + 1) * 2 ^ 1) (2 ^ 62) = 2 ^ 54 + 2 := by
  decide!

/-! ## Panics -/

/-- C6: `JiraBackoff` is not total.  On the empty table, the response with fill rate 0
and `Retry-After` 0 passes every header check, the sum of the table is zero and
`interval / fillRate` divides by zero; on the nil table, any response with four valid
headers ends in the write to a nil map. -/
theorem JiraBackoff_panics :
    JiraBackoff .amd64 ⟨some ∅⟩ Second (30 * Second) 0
        (some (rateLimitResponse 429 "node-1" "60" "0" "0")) =
      .error .integerDivideByZero ∧
    JiraBackoff .amd64 ⟨none⟩ Second (30 * Second) 0
        (some (rateLimitResponse 429 "node-1" "60" "15" "2")) =
      .error .assignmentToEntryInNilMap := by
  decide

/-! ## The effect on the table -/

/-- C7: for every receiver and every 429 response with all four headers present and
valid, whenever `JiraBackoff` returns, the table is the old one with `nodeId` set to
`retryAfter`: it maps `nodeId` to exactly `retryAfter` whatever was there, every other
key keeps its value and no key is removed.  It does return on every non-nil table unless
the sum after recording is zero and the fill rate is zero. -/
theorem JiraBackoff_records_retry_after (arch : Arch) (m : RateLimitInfo)
    (min max attemptNum : Int) (resp : Response) (nodeId : String)
    (interval fillRate retryAfter : Int)
    (hs : resp.StatusCode = StatusTooManyRequests)
    (hN : Header.Get resp.Header "x-anodeid" = nodeId) (hNe : nodeId ≠ "")
    (hI : Atoi (Header.Get resp.Header "x-ratelimit-interval-seconds") = some interval)
    (hF : Atoi (Header.Get resp.Header "x-ratelimit-fillrate") = some fillRate)
    (hR : Atoi (Header.Get resp.Header "Retry-After") = some retryAfter) :
    (∀ (m' : RateLimitInfo) (d : Int),
      JiraBackoff arch m min max attemptNum (some resp) = .ok (m', d) →
      ∃ data data' : Table, m.Data = some data ∧ m'.Data = some data' ∧
        data' = data.insert nodeId retryAfter ∧
        data'.lookup nodeId = some retryAfter ∧
        (∀ k, k ≠ nodeId → data'.lookup k = data.lookup k) ∧
        (∀ k, k ∈ data → k ∈ data')) ∧
    (∀ data : Table, m.Data = some data →
      fillRate ≠ 0 ∨ sumMapValues (some (data.insert nodeId retryAfter)) ≠ 0 →
      ∃ d : Int, JiraBackoff arch m min max attemptNum (some resp) =
        .ok (⟨some (data.insert nodeId retryAfter)⟩, d)) := by
  constructor
  · intro m' d hret
    obtain ⟨Data⟩ := m
    cases Data with
    | none =>
      rw [JiraBackoff_nil_map arch min max attemptNum resp nodeId interval fillRate
        retryAfter hs hN hNe hI hF hR] at hret
      cases hret
    | some data =>
      have hm' : m' = ⟨some (data.insert nodeId retryAfter)⟩ := by
        rw [JiraBackoff_recorded arch data min max attemptNum resp nodeId interval fillRate
          retryAfter hs hN hNe hI hF hR] at hret
        split at hret
        · split at hret
          · cases hret
          · cases hret
            rfl
        · cases hret
          rfl
      refine ⟨data, data.insert nodeId retryAfter, rfl, by rw [hm'], rfl,
        Finmap.lookup_insert data, ?_, ?_⟩
      · intro k hk
        exact Finmap.lookup_insert_of_ne data hk
      · intro k hk
        exact Finmap.mem_insert.mpr (Or.inr hk)
  · intro data hdata hprog
    obtain ⟨Data⟩ := m
    cases hdata
    rw [JiraBackoff_recorded arch data min max attemptNum resp nodeId interval fillRate
      retryAfter hs hN hNe hI hF hR]
    by_cases h0 : sumMapValues (some (data.insert nodeId retryAfter)) = 0
    · have hf : fillRate ≠ 0 := by
        rcases hprog with hf | hne
        · exact hf
        · exact absurd h0 hne
      rw [if_pos h0, if_neg hf]
      exact ⟨_, rfl⟩
    · rw [if_neg h0]
      exact ⟨_, rfl⟩

/-- C7, witness: node-1 had recorded 7; a response for node-1 with `Retry-After` 2 leaves
2 under node-1, not 9, and keeps node-2. -/
theorem JiraBackoff_records_retry_after_witness :
    ∃ data data' : Table,
      (⟨some (((∅ : Table).insert "node-2" 3).insert "node-1" 7)⟩ : RateLimitInfo).Data =
        some data ∧
      (⟨some (((∅ : Table).insert "node-2" 3).insert "node-1" 2)⟩ : RateLimitInfo).Data =
        some data' ∧
      data' = data.insert "node-1" 2 ∧ data'.lookup "node-1" = some 2 ∧
      (∀ k, k ≠ "node-1" → data'.lookup k = data.lookup k) ∧
      (∀ k, k ∈ data → k ∈ data') :=
  (JiraBackoff_records_retry_after .amd64
    ⟨some (((∅ : Table).insert "node-2" 3).insert "node-1" 7)⟩ Second (30 * Second) 0
    (rateLimitResponse 429 "node-1" "60" "15" "2") "node-1" 60 15 2
    (by decide) (by decide) (by decide) (by decide) (by decide) (by decide)).1
    ⟨some (((∅ : Table).insert "node-2" 3).insert "node-1" 2)⟩ Second (by decide!)

/-- C8: the table is left as it was whenever the rate-limit path is not completed: for a
nil response, for a response whose status is not 429, and for a 429 response in which one
of the four fields is absent, empty or unparsable, whatever the other fields hold; the
call returns `simpleBackOff min max attemptNum` and the receiver it was given. -/
theorem JiraBackoff_table_unchanged (arch : Arch) (m : RateLimitInfo)
    (min max attemptNum : Int) (resp : Option Response)
    (h : resp = none ∨
      (∃ r, resp = some r ∧ r.StatusCode ≠ StatusTooManyRequests) ∨
      (∃ r, resp = some r ∧ r.StatusCode = StatusTooManyRequests ∧
        (Header.Get r.Header "x-anodeid" = "" ∨
          (Header.Get r.Header "x-ratelimit-interval-seconds" = "" ∨
            Atoi (Header.Get r.Header "x-ratelimit-interval-seconds") = none) ∨
          (Header.Get r.Header "x-ratelimit-fillrate" = "" ∨
            Atoi (Header.Get r.Header "x-ratelimit-fillrate") = none) ∨
          (Header.Get r.Header "Retry-After" = "" ∨
            Atoi (Header.Get r.Header "Retry-After") = none)))) :
    JiraBackoff arch m min max attemptNum resp =
      .ok (m, simpleBackOff arch min max attemptNum) := by
  rcases h with h | ⟨r, h, hs⟩ | ⟨r, h, _, hmiss⟩
  · rw [h, JiraBackoff_nil]
  · rw [h, JiraBackoff_other_status arch m min max attemptNum r hs]
  · rw [h, JiraBackoff_missing arch m min max attemptNum r hmiss]

/-- C8, witness: a table holding node-1, and a 429 response for node-1 whose interval and
fill rate are valid and whose `Retry-After` is an HTTP date: nothing is recorded. -/
theorem JiraBackoff_table_unchanged_witness :
    JiraBackoff .amd64 ⟨some ((∅ : Table).insert "node-1" 7)⟩ Second (30 * Second) 0
        (some (rateLimitResponse 429 "node-1" "60" "15" "Wed, 21 Oct 2015 07:28:00 GMT")) =
      .ok (⟨some ((∅ : Table).insert "node-1" 7)⟩, simpleBackOff .amd64 Second (30 * Second) 0) :=
  JiraBackoff_table_unchanged .amd64 ⟨some ((∅ : Table).insert "node-1" 7)⟩ Second
    (30 * Second) 0
    (some (rateLimitResponse 429 "node-1" "60" "15" "Wed, 21 Oct 2015 07:28:00 GMT"))
    (Or.inr (Or.inr ⟨_, rfl, by decide,
      Or.inr (Or.inr (Or.inr (Or.inr (by decide))))⟩))

/-! ## The sign of the result -/

/-- C9 (amended): for all positive durations `min ≤ max`, every `attemptNum ≥ 0`, every
receiver and every response, a duration that `JiraBackoff` returns is non-negative,
provided that, for a 429 response whose `x-ratelimit-interval-seconds` and
`x-ratelimit-fillrate` both parse, the quotient `interval / fillRate` is between 0 and
9223372036 (the seconds that fit in a 64-bit duration). -/
theorem JiraBackoff_nonneg (arch : Arch) (m m' : RateLimitInfo) (min max attemptNum : Int)
    (resp : Option Response) (d : Int)
    (hmin : 0 < min) (hle : min ≤ max) (hmax : max ≤ maxInt64) (hn : 0 ≤ attemptNum)
    (hq : ∀ r interval fillRate, resp = some r → r.StatusCode = StatusTooManyRequests →
      Atoi (Header.Get r.Header "x-ratelimit-interval-seconds") = some interval →
      Atoi (Header.Get r.Header "x-ratelimit-fillrate") = some fillRate →
      0 ≤ Int.tdiv interval fillRate ∧ Int.tdiv interval fillRate ≤ 9223372036)
    (hret : JiraBackoff arch m min max attemptNum resp = .ok (m', d)) : 0 ≤ d := by
  have hsimple : 0 ≤ simpleBackOff arch min max attemptNum := by
    rw [simpleBackOff_eq_min arch min max attemptNum hn hmin hmax]
    have hf : 0 < roundToFloat64 min := roundToFloat64_pos hmin
    exact le_min (by positivity) (le_trans (le_of_lt hmin) hle)
  rcases JiraBackoff_ok_cases arch m m' min max attemptNum resp d hret with
    ⟨_, hd⟩ | ⟨r, _, _, interval, fillRate, _, hresp, hst, _, _, hI, hF, _, _, _, hd⟩
  · rw [hd]
    exact hsimple
  · rcases hd with ⟨_, _, hd⟩ | ⟨_, hd⟩
    · obtain ⟨hq0, hq1⟩ := hq r interval fillRate hresp hst hI hF
      rw [hd, wrapInt64_seconds _ (by omega) hq1]
      unfold Second
      omega
    · rw [hd]
      exact hsimple

/-- C9, witness: the test suite's steady-state response, quotient 4. -/
theorem JiraBackoff_nonneg_witness : (0 : Int) ≤ 4 * Second :=
  JiraBackoff_nonneg .amd64 ⟨some ∅⟩ ⟨some ((∅ : Table).insert "node-1" 0)⟩ Second
    (30 * Second) 0 (some (rateLimitResponse 429 "node-1" "60" "15" "0")) (4 * Second)
    (by decide) (by decide) (by decide) (by decide)
    (by
      intro r interval fillRate hr _ hI hF
      cases hr
      have h1 : Header.Get (rateLimitResponse 429 "node-1" "60" "15" "0").Header
          "x-ratelimit-interval-seconds" = "60" := by decide
      have h2 : Header.Get (rateLimitResponse 429 "node-1" "60" "15" "0").Header
          "x-ratelimit-fillrate" = "15" := by decide
      have h3 : Atoi "60" = some 60 := by decide
      have h4 : Atoi "15" = some 15 := by decide
      rw [h1, h3] at hI
      rw [h2, h4] at hF
      cases hI
      cases hF
      decide)
    (by decide)

/-- C9 as stated fails: a negative interval header is an integer header value, and
the steady-state branch returns minus four seconds for it. -/
theorem JiraBackoff_negative_interval :
    Atoi "-60" = some (-60) ∧
    JiraBackoff .amd64 ⟨some ∅⟩ Second (30 * Second) 0
        (some (rateLimitResponse 429 "node-1" "-60" "15" "0")) =
      .ok (⟨some ((∅ : Table).insert "node-1" 0)⟩, -4 * Second) ∧
    -4 * Second < 0 := by
  decide

/-! ## The steady-state branch and the values of the table -/

/-- C10 (amended): for every receiver reachable from the empty table by calls of
`JiraBackoff` and every 429 response with all four valid headers and a fill rate other
than zero, the table is not nil and the steady-state branch (`interval / fillRate`) is
taken exactly when the 64-bit sum of the table after recording is zero; if every wait
recorded in that table is non-negative and their exact sum is below `2 ^ 64`, a zero sum
means that every value in the table is zero. -/
theorem JiraBackoff_steady_state_all_zero (arch : Arch) (m : RateLimitInfo)
    (min max attemptNum : Int) (resp : Response) (nodeId : String)
    (interval fillRate retryAfter : Int)
    (hreach : Reachable arch m)
    (hs : resp.StatusCode = StatusTooManyRequests)
    (hN : Header.Get resp.Header "x-anodeid" = nodeId) (hNe : nodeId ≠ "")
    (hI : Atoi (Header.Get resp.Header "x-ratelimit-interval-seconds") = some interval)
    (hF : Atoi (Header.Get resp.Header "x-ratelimit-fillrate") = some fillRate)
    (hR : Atoi (Header.Get resp.Header "Retry-After") = some retryAfter)
    (hf : fillRate ≠ 0) :
    ∃ data : Table, m.Data = some data ∧
      JiraBackoff arch m min max attemptNum (some resp) =
        (if sumMapValues (some (data.insert nodeId retryAfter)) = 0 then
          .ok (⟨some (data.insert nodeId retryAfter)⟩,
            wrapInt64 (wrapInt64 (Int.tdiv interval fillRate) * Second))
        else .ok (⟨some (data.insert nodeId retryAfter)⟩,
          simpleBackOff arch min max attemptNum)) ∧
      ((∀ k v, (data.insert nodeId retryAfter).lookup k = some v → 0 ≤ v) →
        tableTotal (data.insert nodeId retryAfter) < 2 ^ 64 →
        sumMapValues (some (data.insert nodeId retryAfter)) = 0 →
        ∀ k v, (data.insert nodeId retryAfter).lookup k = some v → v = 0) := by
  obtain ⟨data, hdata⟩ := reachable_data arch m hreach
  obtain ⟨Data⟩ := m
  cases hdata
  refine ⟨data, rfl, ?_, ?_⟩
  · rw [JiraBackoff_recorded arch data min max attemptNum resp nodeId interval
      fillRate retryAfter hs hN hNe hI hF hR, if_neg hf]
  · intro hnn hlt h0
    apply tableTotal_eq_zero _ hnn
    have hge := tableTotal_nonneg _ hnn
    rw [sumMapValues_some] at h0
    unfold wrapInt64 at h0
    omega

/-- C10, witness: the empty table and the test suite's steady-state response. -/
theorem JiraBackoff_steady_state_all_zero_witness :
    ∃ data : Table, emptyInfo.Data = some data ∧
      JiraBackoff .amd64 emptyInfo Second (30 * Second) 0
          (some (rateLimitResponse 429 "node-1" "60" "15" "0")) =
        (if sumMapValues (some (data.insert "node-1" 0)) = 0 then
          .ok (⟨some (data.insert "node-1" 0)⟩,
            wrapInt64 (wrapInt64 (Int.tdiv 60 15) * Second))
        else .ok (⟨some (data.insert "node-1" 0)⟩,
          simpleBackOff .amd64 Second (30 * Second) 0)) ∧
      ((∀ k v, (data.insert "node-1" 0).lookup k = some v → 0 ≤ v) →
        tableTotal (data.insert "node-1" 0) < 2 ^ 64 →
        sumMapValues (some (data.insert "node-1" 0)) = 0 →
        ∀ k v, (data.insert "node-1" 0).lookup k = some v → v = 0) :=
  JiraBackoff_steady_state_all_zero .amd64 emptyInfo Second (30 * Second) 0
    (rateLimitResponse 429 "node-1" "60" "15" "0") "node-1" 60 15 0
    Reachable.start (by decide) (by decide) (by decide) (by decide) (by decide) (by decide)
    (by decide)

/-- C10 as stated fails: after node-a recorded 5 (a table reached from the empty one by
one call), a response of node-b with `Retry-After` -5 makes the sum zero and the
steady-state branch is taken, while node-a still holds 5. -/
theorem JiraBackoff_zero_sum_nonzero_values :
    Reachable .amd64 ⟨some ((∅ : Table).insert "node-a" 5)⟩ ∧
    Atoi "-5" = some (-5) ∧
    JiraBackoff .amd64 ⟨some ((∅ : Table).insert "node-a" 5)⟩ Second (30 * Second) 0
        (some (rateLimitResponse 429 "node-b" "60" "15" "-5")) =
      .ok (⟨some (((∅ : Table).insert "node-a" 5).insert "node-b" (-5))⟩, 4 * Second) ∧
    sumMapValues (some (((∅ : Table).insert "node-a" 5).insert "node-b" (-5))) = 0 ∧
    (((∅ : Table).insert "node-a" 5).insert "node-b" (-5)).lookup "node-a" = some 5 :=
  ⟨Reachable.call Second (30 * Second) 0
      (some (rateLimitResponse 429 "node-a" "60" "15" "5")) Second Reachable.start
      (by decide!),
    by decide, by decide, by decide, by decide⟩

/-! ## A throttled node elsewhere in the table -/

theorem le_tableTotal (t : Table) (h : ∀ k v, t.lookup k = some v → 0 ≤ v)
    (k : String) (v : Int) (hk : t.lookup k = some v) : v ≤ tableTotal t := by
  have hall : ∀ x ∈ t.entries.map Sigma.snd, (0 : Int) ≤ x := by
    intro x hx
    obtain ⟨⟨k', v'⟩, hs, rfl⟩ := Multiset.mem_map.mp hx
    exact h k' v' ((mem_entries_iff t k' v').mp hs)
  have hv : v ∈ t.entries.map Sigma.snd :=
    Multiset.mem_map.mpr ⟨⟨k, v⟩, (mem_entries_iff t k v).mpr hk, rfl⟩
  exact Multiset.single_le_sum hall v hv

/-- C11 (amended): the steady-state decision looks at the whole table.  For a 429
response with all four valid headers and `Retry-After = 0` for node A, applied to a table
without negative entries that holds another node B with a positive wait and whose waits
other than A's add up to less than `2 ^ 64` (so the 64-bit sum cannot wrap to zero),
`JiraBackoff` returns `simpleBackOff min max attemptNum`, not `interval / fillRate`
seconds, and records A with 0. -/
theorem JiraBackoff_other_node_throttled (arch : Arch) (data : Table)
    (min max attemptNum : Int) (resp : Response) (nodeA nodeB : String)
    (interval fillRate waitB : Int)
    (hs : resp.StatusCode = StatusTooManyRequests)
    (hN : Header.Get resp.Header "x-anodeid" = nodeA) (hNe : nodeA ≠ "")
    (hI : Atoi (Header.Get resp.Header "x-ratelimit-interval-seconds") = some interval)
    (hF : Atoi (Header.Get resp.Header "x-ratelimit-fillrate") = some fillRate)
    (hR : Atoi (Header.Get resp.Header "Retry-After") = some 0)
    (hAB : nodeB ≠ nodeA) (hB : data.lookup nodeB = some waitB) (hpos : 0 < waitB)
    (hnn : ∀ k v, data.lookup k = some v → 0 ≤ v)
    (hbound : tableTotal (data.erase nodeA) < 2 ^ 64) :
    JiraBackoff arch ⟨some data⟩ min max attemptNum (some resp) =
        .ok (⟨some (data.insert nodeA 0)⟩, simpleBackOff arch min max attemptNum) ∧
      (data.insert nodeA 0).lookup nodeA = some 0 ∧
      (data.insert nodeA 0).lookup nodeB = some waitB := by
  have hnn' : ∀ k v, (data.erase nodeA).lookup k = some v → 0 ≤ v := by
    intro k v hk
    by_cases hkn : k = nodeA
    · rw [hkn, Finmap.lookup_erase] at hk
      cases hk
    · rw [Finmap.lookup_erase_ne hkn] at hk
      exact hnn k v hk
  have hB' : (data.erase nodeA).lookup nodeB = some waitB := by
    rw [Finmap.lookup_erase_ne hAB]
    exact hB
  have hle := le_tableTotal (data.erase nodeA) hnn' nodeB waitB hB'
  have hne : sumMapValues (some (data.insert nodeA 0)) ≠ 0 := by
    apply sumMapValues_ne_zero
    · rw [tableTotal_insert]
      omega
    · rw [tableTotal_insert]
      omega
  refine ⟨?_, Finmap.lookup_insert data, ?_⟩
  · rw [JiraBackoff_recorded arch data min max attemptNum resp nodeA interval fillRate 0
      hs hN hNe hI hF hR, if_neg hne]
  · rw [Finmap.lookup_insert_of_ne data hAB]
    exact hB

/-- C11, witness: node-2 holds a wait of 3; node-1 reports `Retry-After` 0 at the fourth
attempt (number 3) and gets the exponential 8 seconds, not the 4 seconds of 60 / 15. -/
theorem JiraBackoff_other_node_throttled_witness :
    JiraBackoff .amd64 ⟨some ((∅ : Table).insert "node-2" 3)⟩ Second (30 * Second) 3
        (some (rateLimitResponse 429 "node-1" "60" "15" "0")) =
      .ok (⟨some (((∅ : Table).insert "node-2" 3).insert "node-1" 0)⟩,
        simpleBackOff .amd64 Second (30 * Second) 3) ∧
    (((∅ : Table).insert "node-2" 3).insert "node-1" 0).lookup "node-1" = some 0 ∧
    (((∅ : Table).insert "node-2" 3).insert "node-1" 0).lookup "node-2" = some 3 :=
  JiraBackoff_other_node_throttled .amd64 ((∅ : Table).insert "node-2" 3) Second
    (30 * Second) 3 (rateLimitResponse 429 "node-1" "60" "15" "0") "node-1" "node-2" 60 15 3
    (by decide) (by decide) (by decide) (by decide) (by decide) (by decide) (by decide)
    (by decide) (by decide)
    (by
      intro k v h
      by_cases hk : k = "node-2"
      · rw [hk, Finmap.lookup_insert] at h
        cases h
        decide
      · rw [Finmap.lookup_insert_of_ne _ hk] at h
        simp at h)
    (by decide)

/-- C11 as stated fails: node-b and node-c hold the largest `int` and node-d holds 2, no
entry is negative, yet with `Retry-After` 0 for node-a the 64-bit sum is `2 ^ 64`, that
is 0, and the steady-state 4 seconds are returned, not the exponential 1 second. -/
theorem JiraBackoff_other_nodes_wrap :
    Reachable .amd64 ⟨some wrappedTable⟩ ∧
    wrappedTable.lookup "node-b" = some maxInt64 ∧ 0 < maxInt64 ∧
    Finmap.all (fun _ v => decide (0 ≤ v)) wrappedTable = true ∧
    JiraBackoff .amd64 ⟨some wrappedTable⟩ Second (30 * Second) 0
        (some (rateLimitResponse 429 "node-a" "60" "15" "0")) =
      .ok (⟨some (wrappedTable.insert "node-a" 0)⟩, 4 * Second) ∧
    simpleBackOff .amd64 Second (30 * Second) 0 = Second ∧
    4 * Second ≠ Second :=
  have h1 : Reachable .amd64 ⟨some ((∅ : Table).insert "node-b" maxInt64)⟩ :=
    Reachable.call Second (30 * Second) 0
      (some (rateLimitResponse 429 "node-b" "60" "15" "9223372036854775807")) Second
      Reachable.start (by decide!)
  have h2 : Reachable .amd64
      ⟨some (((∅ : Table).insert "node-b" maxInt64).insert "node-c" maxInt64)⟩ :=
    Reachable.call Second (30 * Second) 0
      (some (rateLimitResponse 429 "node-c" "60" "15" "9223372036854775807")) Second
      h1 (by decide!)
  have h3 : Reachable .amd64 ⟨some wrappedTable⟩ :=
    Reachable.call Second (30 * Second) 0
      (some (rateLimitResponse 429 "node-d" "60" "15" "2")) (4 * Second)
      h2 (by decide!)
  ⟨h3, by decide, by decide, by decide, by decide, by decide!, by decide⟩

/-! ## The sum of the values -/

theorem sumEntries_eq (l : List (String × Int)) :
    sumEntries l = wrapInt64 ((l.map Prod.snd).sum) := by
  have hgen : ∀ (l : List (String × Int)) (x : Int),
      List.foldl (fun sum kv => sumStep sum kv.1 kv.2) (wrapInt64 x) l =
        wrapInt64 (x + (l.map Prod.snd).sum) := by
    intro l
    induction l with
    | nil =>
      intro x
      simp
    | cons kv l ih =>
      intro x
      have hstep : sumStep (wrapInt64 x) kv.1 kv.2 = wrapInt64 (x + kv.2) := by
        unfold sumStep
        exact wrapInt64_wrap_add _ _
      rw [List.foldl_cons, hstep, ih, List.map_cons, List.sum_cons, add_assoc]
  have h := hgen l 0
  have h0 : wrapInt64 0 = 0 := by decide
  rw [h0, zero_add] at h
  exact h

theorem tableTotal_of_entries (t : Table) (l : List (String × Int))
    (hl : ((l.map (fun kv => (⟨kv.1, kv.2⟩ : Sigma fun _ : String => Int)) : List _) :
      Multiset (Sigma fun _ : String => Int)) = t.entries) :
    tableTotal t = (l.map Prod.snd).sum := by
  unfold tableTotal
  rw [← hl, Multiset.map_coe, Multiset.sum_coe, List.map_map]
  rfl

/-- C12 (amended): `sumMapValues` returns the sum of all values of its map reduced to 64
bits: 0 for a nil map and for an empty map, 0 when every value is 0, and for every map,
key `k` and value `v`, the sum of the map with `k` set to `v` is the sum of the map
without `k` plus `v` in 64-bit arithmetic, which is that sum itself whenever it fits in an
`int` (so `node-1: 1, node-2: 2` gives 3); the loop gives the same result over every
iteration order. -/
theorem sumMapValues_sum (t : Table) (k : String) (v : Int) :
    sumMapValues none = 0 ∧ sumMapValues (some ∅) = 0 ∧
    ((∀ k' v', t.lookup k' = some v' → v' = 0) → sumMapValues (some t) = 0) ∧
    sumMapValues (some t) = wrapInt64 (tableTotal t) ∧
    sumMapValues (some (t.insert k v)) = wrapInt64 (sumMapValues (some (t.erase k)) + v) ∧
    (InInt64 (sumMapValues (some (t.erase k)) + v) →
      sumMapValues (some (t.insert k v)) = sumMapValues (some (t.erase k)) + v) ∧
    sumMapValues (some (((∅ : Table).insert "node-1" 1).insert "node-2" 2)) = 3 ∧
    (∀ l₁ l₂ : List (String × Int), l₁.Perm l₂ → sumEntries l₁ = sumEntries l₂) ∧
    (∀ l : List (String × Int),
      ((l.map (fun kv => (⟨kv.1, kv.2⟩ : Sigma fun _ : String => Int)) : List _) :
        Multiset (Sigma fun _ : String => Int)) = t.entries →
      sumMapValues (some t) = sumEntries l) := by
  have hins : sumMapValues (some (t.insert k v)) =
      wrapInt64 (sumMapValues (some (t.erase k)) + v) := by
    rw [sumMapValues_some, sumMapValues_some, tableTotal_insert, wrapInt64_wrap_add, add_comm]
  refine ⟨rfl, by decide, ?_, sumMapValues_some t, hins, ?_, by decide, ?_, ?_⟩
  · intro hz
    have h0 : tableTotal t = 0 := by
      unfold tableTotal
      apply Multiset.sum_eq_zero
      intro x hx
      obtain ⟨⟨k', v'⟩, hs, rfl⟩ := Multiset.mem_map.mp hx
      exact hz k' v' ((mem_entries_iff t k' v').mp hs)
    rw [sumMapValues_some, h0]
    decide
  · intro hfit
    rw [hins, wrapInt64_of_inInt64 hfit]
  · intro l₁ l₂ hp
    rw [sumEntries_eq, sumEntries_eq, (hp.map Prod.snd).sum_eq]
  · intro l hl
    rw [sumMapValues_some, sumEntries_eq, tableTotal_of_entries t l hl]

/-- C12, witness: the map `node-1: 1` with `node-2` set to 2, summed through the map and
through the loop in both orders. -/
theorem sumMapValues_sum_witness :
    sumMapValues (some (((∅ : Table).insert "node-1" 1).insert "node-2" 2)) =
        sumMapValues (some (((∅ : Table).insert "node-1" 1).erase "node-2")) + 2 ∧
      sumEntries [("node-1", 1), ("node-2", 2)] = sumEntries [("node-2", 2), ("node-1", 1)] ∧
      sumMapValues (some (((∅ : Table).insert "node-1" 1).insert "node-2" 2)) = 3 :=
  have h := sumMapValues_sum ((∅ : Table).insert "node-1" 1) "node-2" 2
  ⟨h.2.2.2.2.2.1 (by decide), h.2.2.2.2.2.2.2.1 _ _ (List.Perm.swap _ _ _), h.2.2.2.2.2.2.1⟩

/-- C12 as stated fails: the map `node-1: 9223372036854775807` with `node-2` set to 1
sums to the smallest `int`, while the sum without `node-2` plus 1 is `2 ^ 63`. -/
theorem sumMapValues_overflow :
    sumMapValues (some (((∅ : Table).insert "node-1" maxInt64).insert "node-2" 1)) =
      minInt64 ∧
    sumMapValues (some (((∅ : Table).insert "node-1" maxInt64).erase "node-2")) + 1 =
      2 ^ 63 ∧
    minInt64 ≠ 2 ^ 63 := by
  decide

/-! ## Monotonicity and the upper bound of the exponential schedule -/

theorem simpleBackOff_le_max (arch : Arch) (min max attemptNum : Int) :
    simpleBackOff arch min max attemptNum ≤ max := by
  unfold simpleBackOff
  dsimp only
  split
  · exact le_refl max
  · rename_i h
    have h2 := (not_or.mp h).2
    exact not_lt.mp h2

/-- C13: for all durations `0 < min ≤ max` (64-bit values) and all attempt numbers
`0 ≤ a ≤ b`, `simpleBackOff min max a ≤ simpleBackOff min max b`, and once
`simpleBackOff min max a = max` it is `max` for every `b ≥ a`. -/
theorem simpleBackOff_monotone (arch : Arch) (min max a b : Int)
    (hmin : 0 < min) (_hle : min ≤ max) (hmax : max ≤ maxInt64) (ha : 0 ≤ a) (hab : a ≤ b) :
    simpleBackOff arch min max a ≤ simpleBackOff arch min max b ∧
      (simpleBackOff arch min max a = max → simpleBackOff arch min max b = max) := by
  have hb : 0 ≤ b := le_trans ha hab
  have hf : 0 < roundToFloat64 min := roundToFloat64_pos hmin
  have hpow : (2 : Int) ^ a.toNat ≤ 2 ^ b.toNat :=
    pow_le_pow_right₀ (by norm_num) (by omega)
  have hmul : roundToFloat64 min * 2 ^ a.toNat ≤ roundToFloat64 min * 2 ^ b.toNat :=
    mul_le_mul_of_nonneg_left hpow (le_of_lt hf)
  rw [simpleBackOff_eq_min arch min max a ha hmin hmax,
    simpleBackOff_eq_min arch min max b hb hmin hmax]
  constructor
  · exact min_le_min hmul (le_refl max)
  · intro h
    have h1 : max ≤ roundToFloat64 min * 2 ^ a.toNat := by
      rw [← h]
      exact min_le_left _ _
    exact min_eq_right (le_trans h1 hmul)

/-- C13, witness: bounds of 1 and 30 seconds, attempts 2 and 9 (4 and 30 seconds), and
attempts 5 and 9 (30 seconds both). -/
theorem simpleBackOff_monotone_witness :
    (simpleBackOff .amd64 Second (30 * Second) 2 ≤ simpleBackOff .amd64 Second (30 * Second) 9 ∧
      (simpleBackOff .amd64 Second (30 * Second) 2 = 30 * Second →
        simpleBackOff .amd64 Second (30 * Second) 9 = 30 * Second)) ∧
    simpleBackOff .arm64 Second (30 * Second) 9 = 30 * Second :=
  ⟨simpleBackOff_monotone .amd64 Second (30 * Second) 2 9 (by decide) (by decide)
      (by decide) (by decide) (by decide),
    (simpleBackOff_monotone .arm64 Second (30 * Second) 5 9 (by decide) (by decide)
      (by decide) (by decide) (by decide)).2 (by decide!)⟩

/-- C14: for every `min`, `max` and `attemptNum`, of any sign and in any order,
`simpleBackOff min max attemptNum ≤ max`; hence a duration that `JiraBackoff` returns is
at most `max` unless it comes from the `interval / fillRate` branch, which is taken by a
429 response with four valid fields when the sum of the table after recording is zero. -/
theorem JiraBackoff_le_max (arch : Arch) (min max attemptNum : Int) :
    simpleBackOff arch min max attemptNum ≤ max ∧
    ∀ (m m' : RateLimitInfo) (resp : Option Response) (d : Int),
      JiraBackoff arch m min max attemptNum resp = .ok (m', d) →
      d ≤ max ∨
        ∃ (r : Response) (data : Table) (interval fillRate retryAfter : Int),
          resp = some r ∧ r.StatusCode = StatusTooManyRequests ∧
          Atoi (Header.Get r.Header "x-ratelimit-interval-seconds") = some interval ∧
          Atoi (Header.Get r.Header "x-ratelimit-fillrate") = some fillRate ∧
          Atoi (Header.Get r.Header "Retry-After") = some retryAfter ∧
          m.Data = some data ∧
          sumMapValues (some (data.insert (Header.Get r.Header "x-anodeid") retryAfter)) = 0 ∧
          d = wrapInt64 (wrapInt64 (Int.tdiv interval fillRate) * Second) := by
  refine ⟨simpleBackOff_le_max arch min max attemptNum, ?_⟩
  intro m m' resp d hret
  rcases JiraBackoff_ok_cases arch m m' min max attemptNum resp d hret with
    ⟨_, hd⟩ | ⟨r, data, nodeId, interval, fillRate, retryAfter, hresp, hst, hN, _, hI, hF, hR,
      hdata, _, hd⟩
  · left
    rw [hd]
    exact simpleBackOff_le_max arch min max attemptNum
  · rcases hd with ⟨h0, _, hd⟩ | ⟨_, hd⟩
    · right
      refine ⟨r, data, interval, fillRate, retryAfter, hresp, hst, hI, hF, hR, hdata, ?_, hd⟩
      rw [hN]
      exact h0
    · left
      rw [hd]
      exact simpleBackOff_le_max arch min max attemptNum

/-- C14, witness: a negative attempt number with `min` above `max`, and a rate-limited
response whose node reports a positive `Retry-After`. -/
theorem JiraBackoff_le_max_witness :
    simpleBackOff .amd64 (30 * Second) Second (-3) ≤ Second ∧
    (2 * Second ≤ 30 * Second ∨
      ∃ (r : Response) (data : Table) (interval fillRate retryAfter : Int),
        some (rateLimitResponse 429 "node-1" "60" "15" "2") = some r ∧
        r.StatusCode = StatusTooManyRequests ∧
        Atoi (Header.Get r.Header "x-ratelimit-interval-seconds") = some interval ∧
        Atoi (Header.Get r.Header "x-ratelimit-fillrate") = some fillRate ∧
        Atoi (Header.Get r.Header "Retry-After") = some retryAfter ∧
        emptyInfo.Data = some data ∧
        sumMapValues (some (data.insert (Header.Get r.Header "x-anodeid") retryAfter)) = 0 ∧
        2 * Second = wrapInt64 (wrapInt64 (Int.tdiv interval fillRate) * Second)) :=
  ⟨(JiraBackoff_le_max .amd64 (30 * Second) Second (-3)).1,
    (JiraBackoff_le_max .amd64 Second (30 * Second) 1).2 emptyInfo
      ⟨some ((∅ : Table).insert "node-1" 2)⟩
      (some (rateLimitResponse 429 "node-1" "60" "15" "2")) (2 * Second) (by decide!)⟩

/-! ## Sequences of calls -/

theorem recordedWrite_of_missing (r : Response)
    (h : Header.Get r.Header "x-anodeid" = "" ∨
      (Header.Get r.Header "x-ratelimit-interval-seconds" = "" ∨
        Atoi (Header.Get r.Header "x-ratelimit-interval-seconds") = none) ∨
      (Header.Get r.Header "x-ratelimit-fillrate" = "" ∨
        Atoi (Header.Get r.Header "x-ratelimit-fillrate") = none) ∨
      (Header.Get r.Header "Retry-After" = "" ∨
        Atoi (Header.Get r.Header "Retry-After") = none)) :
    recordedWrite (some r) = none := by
  have hnone : ∀ key, Header.Get r.Header key = "" ∨ Atoi (Header.Get r.Header key) = none →
      Atoi (Header.Get r.Header key) = none := by
    intro key hk
    rcases hk with hk | hk
    · rw [hk]
      exact Atoi_empty
    · exact hk
  unfold recordedWrite
  dsimp only
  rcases h with h | h | h | h
  · rw [if_neg (fun hc => hc.2 h)]
  · rw [hnone _ h]
    split
    · rfl
    · rfl
  · rw [hnone _ h]
    split
    · cases Atoi (Header.Get r.Header "x-ratelimit-interval-seconds") <;> rfl
    · rfl
  · rw [hnone _ h]
    split
    · cases Atoi (Header.Get r.Header "x-ratelimit-interval-seconds") <;>
        cases Atoi (Header.Get r.Header "x-ratelimit-fillrate") <;> rfl
    · rfl

theorem recordedWrite_of_valid (r : Response) (interval fillRate retryAfter : Int)
    (hs : r.StatusCode = StatusTooManyRequests) (hN : Header.Get r.Header "x-anodeid" ≠ "")
    (hI : Atoi (Header.Get r.Header "x-ratelimit-interval-seconds") = some interval)
    (hF : Atoi (Header.Get r.Header "x-ratelimit-fillrate") = some fillRate)
    (hR : Atoi (Header.Get r.Header "Retry-After") = some retryAfter) :
    recordedWrite (some r) = some (Header.Get r.Header "x-anodeid", retryAfter) := by
  unfold recordedWrite
  dsimp only
  rw [if_pos ⟨hs, hN⟩, hI, hF, hR]

theorem JiraBackoff_state (arch : Arch) (m m' : RateLimitInfo) (min max attemptNum : Int)
    (resp : Option Response) (d : Int)
    (h : JiraBackoff arch m min max attemptNum resp = .ok (m', d)) :
    (recordedWrite resp = none ∧ m' = m) ∨
    ∃ (k : String) (v : Int) (data : Table), recordedWrite resp = some (k, v) ∧
      m.Data = some data ∧ m' = ⟨some (data.insert k v)⟩ := by
  have hsimple : ∀ {x : RateLimitInfo × Int},
      (Except.ok (m, simpleBackOff arch min max attemptNum) : Except GoPanic _) = .ok x →
      x.1 = m := by
    intro x hx
    cases hx
    rfl
  cases resp with
  | none =>
    rw [JiraBackoff_nil] at h
    exact Or.inl ⟨rfl, hsimple h⟩
  | some r =>
    by_cases hs : r.StatusCode = StatusTooManyRequests
    · by_cases hmiss : Header.Get r.Header "x-anodeid" = "" ∨
          (Header.Get r.Header "x-ratelimit-interval-seconds" = "" ∨
            Atoi (Header.Get r.Header "x-ratelimit-interval-seconds") = none) ∨
          (Header.Get r.Header "x-ratelimit-fillrate" = "" ∨
            Atoi (Header.Get r.Header "x-ratelimit-fillrate") = none) ∨
          (Header.Get r.Header "Retry-After" = "" ∨
            Atoi (Header.Get r.Header "Retry-After") = none)
      · rw [JiraBackoff_missing arch m min max attemptNum r hmiss] at h
        exact Or.inl ⟨recordedWrite_of_missing r hmiss, hsimple h⟩
      · simp only [not_or] at hmiss
        obtain ⟨hN, ⟨_, hI⟩, ⟨_, hF⟩, _, hR⟩ := hmiss
        obtain ⟨interval, hI⟩ := Option.ne_none_iff_exists'.mp hI
        obtain ⟨fillRate, hF⟩ := Option.ne_none_iff_exists'.mp hF
        obtain ⟨retryAfter, hR⟩ := Option.ne_none_iff_exists'.mp hR
        obtain ⟨Data⟩ := m
        cases Data with
        | none =>
          rw [JiraBackoff_nil_map arch min max attemptNum r _ interval fillRate retryAfter
            hs rfl hN hI hF hR] at h
          cases h
        | some data =>
          rw [JiraBackoff_recorded arch data min max attemptNum r _ interval
            fillRate retryAfter hs rfl hN hI hF hR] at h
          refine Or.inr ⟨Header.Get r.Header "x-anodeid", retryAfter, data,
            recordedWrite_of_valid r interval fillRate retryAfter hs hN hI hF hR, rfl, ?_⟩
          split at h
          · split at h
            · cases h
            · cases h
              rfl
          · cases h
            rfl
    · rw [JiraBackoff_other_status arch m min max attemptNum r hs] at h
      refine Or.inl ⟨?_, hsimple h⟩
      unfold recordedWrite
      dsimp only
      rw [if_neg (fun hc => hs hc.1)]

theorem runCalls_cons_ok (arch : Arch) (m m' : RateLimitInfo) (c : Call) (cs : List Call)
    (h : runCalls arch m (c :: cs) = .ok m') :
    ∃ (m₁ : RateLimitInfo) (d : Int),
      JiraBackoff arch m c.min c.max c.attemptNum c.resp = .ok (m₁, d) ∧
      runCalls arch m₁ cs = .ok m' := by
  rw [runCalls] at h
  cases hj : JiraBackoff arch m c.min c.max c.attemptNum c.resp with
  | error p =>
    rw [hj] at h
    cases h
  | ok x =>
    obtain ⟨m₁, d⟩ := x
    rw [hj] at h
    exact ⟨m₁, d, rfl, h⟩

theorem runCalls_append (arch : Arch) (xs ys : List Call) :
    ∀ (m m' : RateLimitInfo), runCalls arch m (xs ++ ys) = .ok m' →
      ∃ mid : RateLimitInfo, runCalls arch m xs = .ok mid ∧ runCalls arch mid ys = .ok m' := by
  induction xs with
  | nil =>
    intro m m' h
    exact ⟨m, rfl, h⟩
  | cons c cs ih =>
    intro m m' h
    obtain ⟨m₁, d, hj, hrest⟩ := runCalls_cons_ok arch m m' c (cs ++ ys) h
    obtain ⟨mid, h1, h2⟩ := ih m₁ m' hrest
    refine ⟨mid, ?_, h2⟩
    rw [runCalls, hj]
    exact h1

theorem runCalls_lookup (arch : Arch) (calls : List Call) :
    ∀ (m m' : RateLimitInfo) (data : Table), m.Data = some data →
      runCalls arch m calls = .ok m' →
      ∃ data' : Table, m'.Data = some data' ∧
        ∀ k, data'.lookup k =
          (match lastWrite k calls with
          | some v => some v
          | none => data.lookup k) := by
  induction calls with
  | nil =>
    intro m m' data hdata h
    rw [runCalls] at h
    cases h
    exact ⟨data, hdata, fun k => rfl⟩
  | cons c cs ih =>
    intro m m' data hdata h
    obtain ⟨m₁, d, hj, hrest⟩ := runCalls_cons_ok arch m m' c cs h
    rcases JiraBackoff_state arch m m₁ c.min c.max c.attemptNum c.resp d hj with
      ⟨hw, hm⟩ | ⟨k₀, v₀, data₀, hw, hdata₀, hm⟩
    · rw [hm] at hrest
      obtain ⟨data', hd', hl⟩ := ih m m' data hdata hrest
      refine ⟨data', hd', ?_⟩
      intro k
      rw [hl k, lastWrite, hw]
      cases lastWrite k cs <;> rfl
    · rw [hdata] at hdata₀
      cases hdata₀
      obtain ⟨data', hd', hl⟩ := ih m₁ m' (data.insert k₀ v₀) (by rw [hm]) hrest
      refine ⟨data', hd', ?_⟩
      intro k
      rw [hl k, lastWrite, hw]
      cases lastWrite k cs with
      | some v => rfl
      | none =>
        by_cases hk : k₀ = k
        · subst hk
          simp [Finmap.lookup_insert]
        · have hk' : k ≠ k₀ := fun hc => hk hc.symm
          simp [hk, Finmap.lookup_insert_of_ne data hk']

theorem lastWrite_eq_some_iff (k : String) (calls : List Call) :
    (∃ v, lastWrite k calls = some v) ↔
      ∃ c ∈ calls, ∃ v, recordedWrite c.resp = some (k, v) := by
  induction calls with
  | nil => simp [lastWrite]
  | cons c cs ih =>
    rw [lastWrite]
    cases hl : lastWrite k cs with
    | some v =>
      have hex : ∃ c ∈ cs, ∃ v, recordedWrite c.resp = some (k, v) := ih.mp ⟨v, hl⟩
      obtain ⟨c', hc', hv⟩ := hex
      constructor
      · intro _
        exact ⟨c', List.mem_cons_of_mem c hc', hv⟩
      · intro _
        exact ⟨v, rfl⟩
    | none =>
      have hno : ¬ ∃ c ∈ cs, ∃ v, recordedWrite c.resp = some (k, v) := by
        intro hex
        obtain ⟨v, hv⟩ := ih.mpr hex
        rw [hl] at hv
        cases hv
      constructor
      · rintro ⟨v, hv⟩
        refine ⟨c, List.mem_cons_self c cs, v, ?_⟩
        cases hw : recordedWrite c.resp with
        | none =>
          rw [hw] at hv
          cases hv
        | some kv =>
          obtain ⟨k', v'⟩ := kv
          rw [hw] at hv
          dsimp only at hv
          by_cases hk : k' = k
          · rw [if_pos hk] at hv
            cases hv
            rw [hk]
          · rw [if_neg hk] at hv
            cases hv
      · rintro ⟨c', hc', v, hv⟩
        rcases List.mem_cons.mp hc' with rfl | hcs
        · exact ⟨v, by rw [hv]; simp⟩
        · exact absurd ⟨c', hcs, v, hv⟩ hno

/-- C15: last write wins over any sequence of calls.  When every call of a finite sequence
applied in order to the empty table returns, the final table is not nil, each node id
maps to the `Retry-After` value of the last 429 response of the sequence that carries it
with all four valid headers, the keys are exactly the node ids carried by such responses,
and the keys present after any initial part of the sequence are still present at the
end. -/
theorem runCalls_last_write_wins (arch : Arch) (calls : List Call) (m' : RateLimitInfo)
    (hrun : runCalls arch emptyInfo calls = .ok m') :
    ∃ data : Table, m'.Data = some data ∧
      (∀ k, data.lookup k = lastWrite k calls) ∧
      (∀ k, k ∈ data ↔ ∃ c ∈ calls, ∃ v, recordedWrite c.resp = some (k, v)) ∧
      (∀ xs ys, calls = xs ++ ys →
        ∃ (mid : RateLimitInfo) (dmid : Table), runCalls arch emptyInfo xs = .ok mid ∧
          mid.Data = some dmid ∧ ∀ k, k ∈ dmid → k ∈ data) := by
  have hkeys : ∀ (cs : List Call) (m₁ : RateLimitInfo), runCalls arch emptyInfo cs = .ok m₁ →
      ∃ d₁ : Table, m₁.Data = some d₁ ∧ (∀ k, d₁.lookup k = lastWrite k cs) ∧
        ∀ k, k ∈ d₁ ↔ ∃ c ∈ cs, ∃ v, recordedWrite c.resp = some (k, v) := by
    intro cs m₁ h₁
    obtain ⟨d₁, hd₁, hl⟩ := runCalls_lookup arch cs emptyInfo m₁ ∅ rfl h₁
    have hl' : ∀ k, d₁.lookup k = lastWrite k cs := by
      intro k
      rw [hl k]
      cases lastWrite k cs with
      | some v => rfl
      | none => exact Finmap.lookup_empty k
    refine ⟨d₁, hd₁, hl', ?_⟩
    intro k
    rw [Finmap.mem_iff, ← lastWrite_eq_some_iff k cs]
    constructor
    · rintro ⟨v, hv⟩
      exact ⟨v, by rw [← hl' k]; exact hv⟩
    · rintro ⟨v, hv⟩
      exact ⟨v, by rw [hl' k]; exact hv⟩
  obtain ⟨data, hdata, hlook, hmem⟩ := hkeys calls m' hrun
  refine ⟨data, hdata, hlook, hmem, ?_⟩
  intro xs ys hsplit
  rw [hsplit] at hrun
  obtain ⟨mid, hxs, _⟩ := runCalls_append arch xs ys emptyInfo m' hrun
  obtain ⟨dmid, hdmid, _, hmemmid⟩ := hkeys xs mid hxs
  refine ⟨mid, dmid, hxs, hdmid, ?_⟩
  intro k hk
  obtain ⟨c, hc, v, hv⟩ := (hmemmid k).mp hk
  exact (hmem k).mpr ⟨c, by rw [hsplit]; exact List.mem_append_left ys hc, v, hv⟩

/-- C15, witness: after the five calls of `sampleCalls` node-1 holds 2 (not 5, not 7),
node-2 holds 3 and node-3, whose response lacked a field, is not a key. -/
theorem runCalls_last_write_wins_witness :
    (∃ data : Table,
      (⟨some (((∅ : Table).insert "node-2" 3).insert "node-1" 2)⟩ : RateLimitInfo).Data =
        some data ∧
      (∀ k, data.lookup k = lastWrite k sampleCalls) ∧
      (∀ k, k ∈ data ↔ ∃ c ∈ sampleCalls, ∃ v, recordedWrite c.resp = some (k, v)) ∧
      (∀ xs ys, sampleCalls = xs ++ ys →
        ∃ (mid : RateLimitInfo) (dmid : Table), runCalls .amd64 emptyInfo xs = .ok mid ∧
          mid.Data = some dmid ∧ ∀ k, k ∈ dmid → k ∈ data)) ∧
    lastWrite "node-1" sampleCalls = some 2 ∧ lastWrite "node-2" sampleCalls = some 3 ∧
    lastWrite "node-3" sampleCalls = none :=
  ⟨runCalls_last_write_wins .amd64 sampleCalls
    ⟨some (((∅ : Table).insert "node-2" 3).insert "node-1" 2)⟩ (by decide!),
    by decide, by decide, by decide⟩

/-! ## The steady-state interval against the caller's bounds -/

/-- C17: the steady-state result is not clamped to the caller's bounds.  With bounds of
1 and 30 seconds, the empty table and a 429 response of node-1 with interval 3600, fill
rate 1 and `Retry-After` 0, `JiraBackoff` returns 3600 seconds, more than `max`. -/
theorem JiraBackoff_exceeds_max (arch : Arch) :
    0 < Second ∧ Second ≤ 30 * Second ∧
    JiraBackoff arch emptyInfo Second (30 * Second) 0
        (some (rateLimitResponse 429 "node-1" "3600" "1" "0")) =
      .ok (⟨some ((∅ : Table).insert "node-1" 0)⟩, 3600 * Second) ∧
    30 * Second < 3600 * Second := by
  cases arch <;> decide

/-! ## Masking the `Authorization` header -/

theorem indexChar_none_iff (sep : Char) (l : List Char) :
    indexChar sep l = none ↔ sep ∉ l := by
  induction l with
  | nil => simp [indexChar]
  | cons c cs ih =>
    rw [indexChar]
    by_cases hc : c = sep
    · simp [hc]
    · have hne : ¬ sep = c := fun h => hc h.symm
      simp [hc, hne, ih]

theorem indexChar_some (sep : Char) (l : List Char) :
    ∀ i, indexChar sep l = some i →
      l.take i = l.takeWhile (fun c => c != sep) ∧ sep ∈ l ∧
        (0 < i ↔ l.head? ≠ some sep) := by
  induction l with
  | nil =>
    intro i h
    simp [indexChar] at h
  | cons c cs ih =>
    intro i h
    rw [indexChar] at h
    by_cases hc : c = sep
    · rw [if_pos hc] at h
      cases h
      simp [hc]
    · rw [if_neg hc] at h
      cases hi : indexChar sep cs with
      | none =>
        rw [hi] at h
        cases h
      | some j =>
        rw [hi] at h
        cases h
        obtain ⟨h1, h2, _⟩ := ih j hi
        refine ⟨?_, List.mem_cons_of_mem c h2, ?_⟩
        · rw [List.take_succ_cons, List.takeWhile_cons, h1]
          simp [hc]
        · simp [hc]

theorem indexChar_append (sep : Char) (scheme rest : List Char) (h : sep ∉ scheme) :
    indexChar sep (scheme ++ sep :: rest) = some scheme.length := by
  induction scheme with
  | nil => simp [indexChar]
  | cons c cs ih =>
    have hc : c ≠ sep := fun hc => h (by rw [hc]; exact List.mem_cons_self _ _)
    have hcs : sep ∉ cs := fun hm => h (List.mem_cons_of_mem c hm)
    rw [List.cons_append, indexChar, if_neg hc, ih hcs]
    rfl

theorem authType_eq_authScheme (value : String) :
    (if stringsIndex value ' ' > 0 then
        String.mk (value.toList.take (stringsIndex value ' ').toNat)
      else value) = authScheme value := by
  unfold stringsIndex authScheme
  cases hi : indexChar ' ' value.toList with
  | none =>
    have hno := (indexChar_none_iff _ _).mp hi
    have hneg : ¬ ((-1 : Int) > 0) := by decide
    rw [if_neg hneg, if_neg (fun hc => hno hc.1)]
  | some i =>
    obtain ⟨h1, h2, h3⟩ := indexChar_some _ _ i hi
    by_cases hpos : 0 < i
    · have hgt : ((i : Nat) : Int) > 0 := by exact_mod_cast hpos
      rw [if_pos hgt, if_pos ⟨h2, h3.mp hpos⟩, Int.toNat_ofNat, h1]
    · have hgt : ¬ ((i : Nat) : Int) > 0 := by
        intro hc
        exact hpos (by exact_mod_cast hc)
      have hhead : ¬ value.toList.head? ≠ some ' ' := fun hc => hpos (h3.mpr hc)
      rw [if_neg hgt, if_neg (fun hc => hhead hc.2)]

theorem maskAuthorizationHeader_eq (equalFold : String → String → Bool)
    (toLowerRune : Char → Char) (key value : String)
    (hk : equalFold key "Authorization" = true) :
    maskAuthorizationHeader equalFold toLowerRune key value =
      if value.length = 0 then ""
      else if !knownAuthTypes.contains (stringsToLower toLowerRune (authScheme value)) then
        "<masked>"
      else if value.length > (authScheme value).length + 1 then
        authScheme value ++ " <masked>"
      else authScheme value := by
  unfold maskAuthorizationHeader
  have hnot : ¬ ((!equalFold key "Authorization") = true) := by simp [hk]
  rw [if_neg hnot]
  dsimp only
  rw [authType_eq_authScheme value]

theorem not_known_of_space (toLowerRune : Char → Char) (hsp : toLowerRune ' ' = ' ')
    (s : String) (h : ' ' ∈ s.toList) :
    knownAuthTypes.contains (stringsToLower toLowerRune s) = false := by
  have hmem : ' ' ∈ (stringsToLower toLowerRune s).toList := by
    unfold stringsToLower
    show ' ' ∈ s.toList.map toLowerRune
    exact List.mem_map.mpr ⟨' ', h, hsp⟩
  cases hc : knownAuthTypes.contains (stringsToLower toLowerRune s) with
  | false => rfl
  | true =>
    exfalso
    have hin : stringsToLower toLowerRune s ∈ knownAuthTypes := by
      simpa using hc
    unfold knownAuthTypes at hin
    simp only [List.mem_cons, List.mem_singleton, List.not_mem_nil, or_false] at hin
    rcases hin with hin | hin | hin <;>
    · rw [hin] at hmem
      revert hmem
      decide

theorem authScheme_append (scheme cred : List Char) (h : ' ' ∉ scheme) (hne : scheme ≠ []) :
    authScheme (String.mk (scheme ++ ' ' :: cred)) = String.mk scheme := by
  obtain ⟨h1, h2, h3⟩ := indexChar_some ' ' (scheme ++ ' ' :: cred) scheme.length
    (indexChar_append ' ' scheme cred h)
  have hpos : 0 < scheme.length := List.length_pos.mpr hne
  unfold authScheme
  show (if ' ' ∈ scheme ++ ' ' :: cred ∧ (scheme ++ ' ' :: cred).head? ≠ some ' ' then
    String.mk ((scheme ++ ' ' :: cred).takeWhile (fun c => c != ' '))
    else String.mk (scheme ++ ' ' :: cred)) = String.mk scheme
  rw [if_pos ⟨h2, h3.mp hpos⟩, ← h1, List.take_left']
  rfl

/-- C18: `maskAuthorizationHeader` never reveals a credential.  For a key that is not
`Authorization` up to case the value is returned unchanged.  For a key that is, and every
value, the result is the empty string, `<masked>`, the scheme `S` or `S` followed by
` <masked>`, where `S` is what stands before the first space of the value (the whole
value when it has no space or starts with one) and the lower-cased `S` is one of
`bearer`, `basic`, `negotiate`; and for a value made of a scheme without space, a space
and a non-empty credential, the result is determined by the scheme alone, whatever the
credential.  `toLowerRune` stands for `unicode.ToLower`, which maps the space to
itself. -/
theorem maskAuthorizationHeader_hides_credential (equalFold : String → String → Bool)
    (toLowerRune : Char → Char) (hsp : toLowerRune ' ' = ' ') (key value : String) :
    (equalFold key "Authorization" = false →
      maskAuthorizationHeader equalFold toLowerRune key value = value) ∧
    (equalFold key "Authorization" = true →
      (maskAuthorizationHeader equalFold toLowerRune key value = "" ∨
        maskAuthorizationHeader equalFold toLowerRune key value = "<masked>" ∨
        ((maskAuthorizationHeader equalFold toLowerRune key value = authScheme value ∨
            maskAuthorizationHeader equalFold toLowerRune key value =
              authScheme value ++ " <masked>") ∧
          knownAuthTypes.contains (stringsToLower toLowerRune (authScheme value)) = true)) ∧
      (∀ scheme cred : List Char, ' ' ∉ scheme → cred ≠ [] →
        value = String.mk (scheme ++ ' ' :: cred) →
        maskAuthorizationHeader equalFold toLowerRune key value =
          if knownAuthTypes.contains (stringsToLower toLowerRune (String.mk scheme)) then
            String.mk scheme ++ " <masked>"
          else "<masked>")) := by
  constructor
  · intro hk
    unfold maskAuthorizationHeader
    rw [if_pos (by simp [hk])]
  · intro hk
    rw [maskAuthorizationHeader_eq equalFold toLowerRune key value hk]
    constructor
    · by_cases h0 : value.length = 0
      · rw [if_pos h0]
        exact Or.inl rfl
      · rw [if_neg h0]
        cases hkn : knownAuthTypes.contains (stringsToLower toLowerRune (authScheme value)) with
        | false =>
          rw [if_pos (by simp)]
          exact Or.inr (Or.inl rfl)
        | true =>
          rw [if_neg (by simp)]
          refine Or.inr (Or.inr ⟨?_, rfl⟩)
          by_cases hlen : value.length > (authScheme value).length + 1
          · rw [if_pos hlen]
            exact Or.inr rfl
          · rw [if_neg hlen]
            exact Or.inl rfl
    · intro scheme cred hno hcred hval
      subst hval
      have hlen0 : ¬ (String.mk (scheme ++ ' ' :: cred)).length = 0 := by
        show ¬ (scheme ++ ' ' :: cred).length = 0
        simp
      rw [if_neg hlen0]
      cases scheme with
      | nil =>
        have hspace : ' ' ∈ (authScheme (String.mk ([] ++ ' ' :: cred))).toList := by
          unfold authScheme
          rw [if_neg (fun hc => hc.2 rfl)]
          exact List.mem_cons_self _ _
        rw [not_known_of_space toLowerRune hsp _ hspace]
        have hempty : knownAuthTypes.contains (stringsToLower toLowerRune (String.mk [])) =
            false := by
          show knownAuthTypes.contains "" = false
          decide
        rw [hempty]
        rfl
      | cons c cs =>
        rw [authScheme_append (c :: cs) cred hno (List.cons_ne_nil c cs)]
        cases hkn : knownAuthTypes.contains (stringsToLower toLowerRune (String.mk (c :: cs))) with
        | false => rfl
        | true =>
          have hcredlen : 0 < cred.length := List.length_pos.mpr hcred
          have hlen : (String.mk (c :: cs ++ ' ' :: cred)).length >
              (String.mk (c :: cs)).length + 1 := by
            show (c :: cs ++ ' ' :: cred).length > (c :: cs).length + 1
            simp only [List.length_append, List.length_cons]
            omega
          simp only [Bool.not_true, Bool.false_eq_true, if_false, if_true]
          rw [if_pos hlen]

/-- C18, witness: with ASCII case folding, the key `Accept` leaves the value as it is,
and under the key `authorization` the value `Bearer abc123` becomes `Bearer <masked>`. -/
theorem maskAuthorizationHeader_hides_credential_witness :
    maskAuthorizationHeader asciiEqualFold Char.toLower "Accept" "Bearer abc123" =
      "Bearer abc123" ∧
    maskAuthorizationHeader asciiEqualFold Char.toLower "authorization" "Bearer abc123" =
      (if knownAuthTypes.contains (stringsToLower Char.toLower (String.mk "Bearer".toList)) then
        String.mk "Bearer".toList ++ " <masked>"
      else "<masked>") ∧
    (if knownAuthTypes.contains (stringsToLower Char.toLower (String.mk "Bearer".toList)) then
        String.mk "Bearer".toList ++ " <masked>"
      else "<masked>") = "Bearer <masked>" :=
  ⟨(maskAuthorizationHeader_hides_credential asciiEqualFold Char.toLower (by decide)
      "Accept" "Bearer abc123").1 (by decide),
    ((maskAuthorizationHeader_hides_credential asciiEqualFold Char.toLower (by decide)
      "authorization" "Bearer abc123").2 (by decide)).2 "Bearer".toList "abc123".toList
      (by decide) (by decide) (by decide),
    by decide⟩

end Jira
